import Mathlib

/-!
Verification development for the symbol-context retrieval and caching engine
of `src/vscode/src/graph/lsp/symbol-context-snippets.ts` (together with the
provider layer in `src/vscode/src/graph/lsp/lsp.ts`).

Shallow embedding conventions:

* `vscode.Position` / `vscode.Range` / `vscode.Location` are embedded as plain
  structures over `Nat`/`String`.
* The two LRU-of-LRU caches are embedded as association-list maps.  The LRU
  capacity bounds (`MAX_CACHED_DOCUMENTS = 100`, etc.) are abstracted as
  "capacity never reached": no claim under consideration concerns eviction.
* The string cache keys of the source (`"line:character"` for the definition
  cache, `"line:character:nodeType:symbolName"` for the location cache, and
  `"uri::key"` entry paths) are injective images of the tuples they are built
  from, so they are embedded as the tuples themselves.
* JavaScript `Set` objects (insertion-ordered, deduplicating) are embedded as
  lists with an `add` that appends when absent.
* The asynchronous engine runs on a single-threaded event loop; `Promise.all`
  over the sibling requests is embedded as left-to-right sequencing.  A
  rejected promise is an `Except.error` result; cache mutations performed
  before a rejection persist, so the engine monad is state-with-error where
  the state survives errors.
* External collaborators (the four language-server providers, document text
  access, the identifier extractor and the common-keyword stoplist, none of
  which live in this subsystem) are parameters gathered in an `Env` record.
* Every provider round-trip is recorded in a ghost trace (tagged with the
  requesting symbol request and the recursion depth); the trace is pure
  instrumentation and never feeds back into control flow.
-/

namespace SymbolSnippets

/-- Association-list map with last-write-wins insert; embeds both `LRUCache`
levels and the plain `Map` of the source (capacity bounds abstracted away). -/
structure Map (κ ν : Type) where
  entries : List (κ × ν)
deriving DecidableEq

namespace Map

variable {κ ν : Type} [DecidableEq κ]

def empty : Map κ ν := ⟨[]⟩

def find? (m : Map κ ν) (k : κ) : Option ν :=
  (m.entries.find? (fun p => decide (p.1 = k))).map (fun p => p.2)

def insert (m : Map κ ν) (k : κ) (v : ν) : Map κ ν :=
  ⟨(k, v) :: m.entries.filter (fun p => decide (p.1 ≠ k))⟩

def erase (m : Map κ ν) (k : κ) : Map κ ν :=
  ⟨m.entries.filter (fun p => decide (p.1 ≠ k))⟩

theorem fused_pred_ne (k k' : κ) (h : k' ≠ k) :
    (fun (a : κ × ν) => !decide (a.1 = k) && decide (a.1 = k'))
      = (fun a => decide (a.1 = k')) := by
  funext a
  by_cases h1 : a.1 = k'
  · have h2 : ¬ a.1 = k := fun hk => h (h1.symm.trans hk)
    simp only [h1, h2, decide_eq_true_eq]
    simp [h]
  · simp [h1]

@[simp] theorem find?_insert_self (m : Map κ ν) (k : κ) (v : ν) :
    (m.insert k v).find? k = some v := by
  simp [find?, insert, List.find?_cons]

theorem find?_insert_ne (m : Map κ ν) (k k' : κ) (v : ν) (h : k' ≠ k) :
    (m.insert k v).find? k' = m.find? k' := by
  have hk : ¬ (k = k') := fun hk => h hk.symm
  simp [find?, insert, List.find?_cons, hk, List.find?_filter, fused_pred_ne k k' h]

@[simp] theorem find?_erase_self (m : Map κ ν) (k : κ) :
    (m.erase k).find? k = none := by
  have hp : ∀ a : κ × ν, (!decide (a.1 = k) && decide (a.1 = k)) = false := by
    intro a; by_cases h1 : a.1 = k <;> simp [h1]
  simp [find?, erase, List.find?_filter, hp]

theorem find?_erase_ne (m : Map κ ν) (k k' : κ) (h : k' ≠ k) :
    (m.erase k).find? k' = m.find? k' := by
  simp [find?, erase, List.find?_filter, fused_pred_ne k k' h]

@[simp] theorem find?_empty (k : κ) : (empty : Map κ ν).find? k = none := rfl

end Map

/-- JavaScript `Set` embedding: insertion-ordered list, deduplicating `add`. -/
abbrev SetList (α : Type) : Type := List α

namespace SetList

variable {α : Type} [DecidableEq α]

def add (s : SetList α) (x : α) : SetList α :=
  if x ∈ s then s else s ++ [x]

def ofList (xs : List α) : SetList α := xs.foldl add []

def remove (s : SetList α) (x : α) : SetList α :=
  s.filter (fun y => decide (y ≠ x))

@[simp] theorem mem_add_self (s : SetList α) (x : α) : x ∈ add s x := by
  by_cases h : x ∈ s <;> simp [add, h]

theorem mem_add_of_mem (s : SetList α) (x y : α) (h : y ∈ s) : y ∈ add s x := by
  by_cases hx : x ∈ s <;> simp [add, hx, h]

theorem add_of_mem (s : SetList α) (x : α) (h : x ∈ s) : add s x = s := by
  simp [add, h]

end SetList

/-! ## The vscode data model -/

/-- `vscode.Position`. -/
structure Position where
  line : Nat
  character : Nat
deriving DecidableEq

/-- `position.translate({lineDelta, characterDelta})`. -/
def Position.translate (p : Position) (lineDelta characterDelta : Nat) : Position :=
  ⟨p.line + lineDelta, p.character + characterDelta⟩

/-- `vscode.Range`; `stop` embeds the `end` field. -/
structure Range where
  start : Position
  stop : Position
deriving DecidableEq

/-- `vscode.Location` (URIs as their `toString()` image). -/
structure Location where
  uri : String
  range : Range
deriving DecidableEq

/-- `SymbolSnippetsRequest` of `symbol-context-snippets.ts`. -/
structure SymbolSnippetsRequest where
  symbolName : String
  uri : String
  position : Position
  nodeType : String
  languageId : String
deriving DecidableEq

/-- The definition-cache sub-key: the source builds the string
`"line:character"` from the location's range start, an injective image of the
start position. -/
def toDefinitionCacheKey (loc : Location) : Position := loc.range.start

/-- `DefinitionCacheEntryPath`: the source encodes it as `"uri::defKey"`. -/
abbrev DefinitionCacheEntryPath := String × Position

/-- The location-cache sub-key: the source builds
`"line:character:nodeType:symbolName"`. -/
abbrev LocationCacheKey := Position × String × String

def toLocationCacheKey (request : SymbolSnippetsRequest) : LocationCacheKey :=
  (request.position, request.nodeType, request.symbolName)

/-- `LocationCacheEntryPath`: the source encodes it as `"uri::locKey"`. -/
abbrev LocationCacheEntryPath := String × LocationCacheKey

/-- `DefinitionCacheEntry`. -/
structure DefinitionCacheEntry where
  content : String
  relatedDefinitionKeys : Option (SetList DefinitionCacheEntryPath)
deriving DecidableEq

/-- `vscode.Hover`, with the `string | MarkdownString` content blocks already
projected to their string value (the source maps
`c => typeof c === 'string' ? c : c.value`). -/
structure Hover where
  contents : List String
deriving DecidableEq

/-- `SymbolSnippetInflightRequest`; `content : Option String` also covers the
`PartialSymbolSnippetInflightRequest` variant (missing `content`). -/
structure SymbolSnippetInflightRequest where
  key : DefinitionCacheEntryPath
  uri : String
  startLine : Nat
  endLine : Nat
  symbol : String
  location : Location
  content : Option String
  relatedDefinitionKeys : Option (SetList DefinitionCacheEntryPath)
deriving DecidableEq

/-! ## Provider-call instrumentation (ghost trace) -/

/-- Which location getter of `lsp.ts` is being invoked. -/
inductive GetterId
  | definitions
  | typeDefinitions
  | implementations
deriving DecidableEq

/-- One external provider round-trip. -/
inductive ProviderCall
  | location (getter : GetterId) (uri : String) (position : Position)
  | hoverAt (uri : String) (position : Position)
  | textAt (location : Location)
deriving DecidableEq

/-- Ghost trace event: the provider call, the symbol request being resolved
when it was issued, and the recursion depth (hops from the initial request
set) of that resolution. -/
structure CallEvent where
  byReq : SymbolSnippetsRequest
  call : ProviderCall
  depth : Nat
deriving DecidableEq

/-! ## Engine state: the two caches and the reverse index -/

/-- The global mutable state of the module: `definitionCache.cache`,
`definitionLocationCache.cache`, the document-to-cache-key reverse index, and
the ghost provider-call trace. -/
structure EngineState where
  definitionCache : Map String (Map Position DefinitionCacheEntry)
  locationCache : Map String (Map LocationCacheKey (List Location))
  documentToLocationCacheKeyMap : Map String (SetList LocationCacheEntryPath)
  trace : List CallEvent
deriving DecidableEq

def EngineState.empty : EngineState :=
  { definitionCache := Map.empty
    locationCache := Map.empty
    documentToLocationCacheKeyMap := Map.empty
    trace := [] }

namespace DefinitionCache

/-- `DefinitionCache.get`. -/
def get (st : EngineState) (location : Location) : Option DefinitionCacheEntry :=
  match Map.find? st.definitionCache location.uri with
  | none => none
  | some documentCache => Map.find? documentCache (toDefinitionCacheKey location)

/-- Lookup by entry path, as `definitionCache.cache.get(uriKey)?.get(definitionKey)`
does in `updateParentDefinitionKeys` and in the result assembler. -/
def getPath (st : EngineState) (path : DefinitionCacheEntryPath) :
    Option DefinitionCacheEntry :=
  match Map.find? st.definitionCache path.1 with
  | none => none
  | some documentCache => Map.find? documentCache path.2

/-- `DefinitionCache.set`. -/
def set (st : EngineState) (location : Location) (entry : DefinitionCacheEntry) :
    EngineState :=
  let uri := location.uri
  let documentCache := (Map.find? st.definitionCache uri).getD Map.empty
  { st with
    definitionCache :=
      Map.insert st.definitionCache uri
        (Map.insert documentCache (toDefinitionCacheKey location) entry) }

/-- Entry replacement at a path: embeds the in-place `Set.add` mutation of the
entry object performed through `updateParentDefinitionKeys`. -/
def setPath (st : EngineState) (path : DefinitionCacheEntryPath)
    (entry : DefinitionCacheEntry) : EngineState :=
  let documentCache := (Map.find? st.definitionCache path.1).getD Map.empty
  { st with
    definitionCache :=
      Map.insert st.definitionCache path.1 (Map.insert documentCache path.2 entry) }

/-- `DefinitionCache.delete`. -/
def delete (st : EngineState) (location : Location) : EngineState :=
  match Map.find? st.definitionCache location.uri with
  | none => st
  | some documentCache =>
      { st with
        definitionCache :=
          Map.insert st.definitionCache location.uri
            (Map.erase documentCache (toDefinitionCacheKey location)) }

/-- `DefinitionCache.deleteDocument`. -/
def deleteDocument (st : EngineState) (uri : String) : EngineState :=
  { st with definitionCache := Map.erase st.definitionCache uri }

end DefinitionCache

namespace DefinitionLocationCache

/-- `DefinitionLocationCache.get`. -/
def get (st : EngineState) (request : SymbolSnippetsRequest) : Option (List Location) :=
  match Map.find? st.locationCache request.uri with
  | none => none
  | some documentCache => Map.find? documentCache (toLocationCacheKey request)

/-- `DefinitionLocationCache.addToDocumentToCacheKeyMap`. -/
def addToDocumentToCacheKeyMap (st : EngineState) (uri : String)
    (cacheKey : LocationCacheEntryPath) : EngineState :=
  let keys := (Map.find? st.documentToLocationCacheKeyMap uri).getD []
  { st with
    documentToLocationCacheKeyMap :=
      Map.insert st.documentToLocationCacheKeyMap uri (SetList.add keys cacheKey) }

/-- `DefinitionLocationCache.set`: stores the entry, then records the entry
path in the reverse index under every resolved location's target document. -/
def set (st : EngineState) (request : SymbolSnippetsRequest)
    (locations : List Location) : EngineState :=
  let uri := request.uri
  let documentCache := (Map.find? st.locationCache uri).getD Map.empty
  let locationCacheKey := toLocationCacheKey request
  let st' :=
    { st with
      locationCache :=
        Map.insert st.locationCache uri
          (Map.insert documentCache locationCacheKey locations) }
  locations.foldl
    (fun acc location =>
      addToDocumentToCacheKeyMap acc location.uri (uri, locationCacheKey))
    st'

/-- `DefinitionLocationCache.delete`. -/
def delete (st : EngineState) (request : SymbolSnippetsRequest) : EngineState :=
  match Map.find? st.locationCache request.uri with
  | none => st
  | some documentCache =>
      { st with
        locationCache :=
          Map.insert st.locationCache request.uri
            (Map.erase documentCache (toLocationCacheKey request)) }

/-- `DefinitionLocationCache.removeFromDocumentToCacheKeyMap`. -/
def removeFromDocumentToCacheKeyMap (st : EngineState) (uri : String)
    (cacheKey : LocationCacheEntryPath) : EngineState :=
  match Map.find? st.documentToLocationCacheKeyMap uri with
  | none => st
  | some keys =>
      let keys' := SetList.remove keys cacheKey
      if keys' = [] then
        { st with
          documentToLocationCacheKeyMap :=
            Map.erase st.documentToLocationCacheKeyMap uri }
      else
        { st with
          documentToLocationCacheKeyMap :=
            Map.insert st.documentToLocationCacheKeyMap uri keys' }

/-- `DefinitionLocationCache.invalidateEntriesForDocument`.  Embeds the source
faithfully, including the shadowing of the `uri` parameter by
`const [uri, key] = cacheKey.split('::')`: the subsequent
`removeFromDocumentToCacheKeyMap` call receives the *requesting* document's
URI (the first component of the entry path), not the document being
invalidated.  The iteration is over a snapshot of the key set, which matches
JavaScript `for..of` semantics here because the only element ever removed
from the set being iterated is the current one. -/
def invalidateEntriesForDocument (st : EngineState) (uri : String) : EngineState :=
  match Map.find? st.documentToLocationCacheKeyMap uri with
  | none => st
  | some cacheKeysToRemove =>
      cacheKeysToRemove.foldl
        (fun acc cacheKey =>
          let requestingUri := cacheKey.1
          let key := cacheKey.2
          let acc' :=
            match Map.find? acc.locationCache requestingUri with
            | none => acc
            | some documentCache =>
                { acc with
                  locationCache :=
                    Map.insert acc.locationCache requestingUri
                      (Map.erase documentCache key) }
          removeFromDocumentToCacheKeyMap acc' requestingUri cacheKey)
        st

end DefinitionLocationCache

/-- `invalidateDocumentCache` (exported).  The source takes a
`vscode.TextDocument` and immediately projects `document.uri.toString()`;
the embedding takes the URI string directly. -/
def invalidateDocumentCache (st : EngineState) (uriString : String) : EngineState :=
  DefinitionLocationCache.invalidateEntriesForDocument
    (DefinitionCache.deleteDocument st uriString) uriString

/-! ## String helpers of `symbol-context-snippets.ts` -/

/-- Newline separator used by every `join('\n')` / `split('\n')` in the source. -/
def newline : String := "\n"

/-- Markdown code-fence marker. -/
def codeFence : String := "```"

/-- Split a character list at every occurrence of `c` (JavaScript
`split(c)` semantics, embedded structurally so that concrete runs reduce). -/
def splitOnChar (c : Char) : List Char → List (List Char)
  | [] => [[]]
  | x :: rest =>
      let r := splitOnChar c rest
      if x = c then [] :: r
      else
        match r with
        | [] => [[x]]
        | h :: t => (x :: h) :: t

/-- JavaScript `split('\n')`. -/
def splitLines (s : String) : List String :=
  (splitOnChar (Char.ofNat 10) s.toList).map (fun cs => String.mk cs)

/-- JavaScript `String.prototype.trim` (whitespace stripped on both ends),
embedded structurally over the character list. -/
def trimString (s : String) : String :=
  String.mk (((s.toList.dropWhile Char.isWhitespace).reverse.dropWhile
    Char.isWhitespace).reverse)

/-- JavaScript `String.prototype.startsWith`. -/
def startsWithStr (s pre : String) : Bool :=
  pre.toList.isPrefixOf s.toList

/-- `extractMarkdownCodeBlock`: collect the lines strictly inside fenced code
blocks, in order, and re-join them with newlines. -/
def extractMarkdownCodeBlock (s : String) : String :=
  let lines := splitLines s
  let step := fun (acc : List String × Bool) (line : String) =>
    let isCodeBlockDelimiter := startsWithStr (trimString line) codeFence
    if isCodeBlockDelimiter && !acc.2 then (acc.1, true)
    else if isCodeBlockDelimiter && acc.2 then (acc.1, false)
    else if acc.2 then (acc.1 ++ [line], acc.2)
    else acc
  String.intercalate newline (lines.foldl step ([], false)).1

/-- `extractHoverContent`. -/
def extractHoverContent (hover : List Hover) : List String :=
  ((((hover.map (fun h => h.contents)).flatten).map extractMarkdownCodeBlock).map
    trimString).filter (fun s => decide (s ≠ ""))

/-- JavaScript `String.prototype.includes`: substring containment. -/
def containsStr (hay needle : String) : Bool :=
  hay.toList.tails.any (fun t => needle.toList.isPrefixOf t)

/-- `isUnhelpfulSymbolSnippet`. -/
def isUnhelpfulSymbolSnippet (symbolName symbolSnippet : String) : Bool :=
  let trimmed := trimString symbolSnippet
  decide (symbolSnippet = "") ||
    decide (symbolSnippet = symbolName) ||
    !(containsStr symbolSnippet symbolName) ||
    decide (trimmed = "interface " ++ symbolName) ||
    decide (trimmed = "class " ++ symbolName) ||
    decide (trimmed = "enum " ++ symbolName) ||
    decide (trimmed = "type " ++ symbolName)

/-! ## The external collaborators -/

/-- External collaborators of the engine, abstracted as oracles:

* `definitions` / `typeDefinitions` / `implementations` / `hover` are the four
  editor provider commands wrapped by `lsp.ts` (`vscode.commands.executeCommand`
  with the respective provider id); the `Location | LocationLink` normalization
  of `locationLinkToLocation` is absorbed into the oracle, which already
  returns normalized `Location`s.  A provider may return an empty list or
  throw (`Except.error`).
* `textAt` is `getTextFromLocation` (`openTextDocument` + `getText`), which
  may also throw.
* `identifiers` is `getLastNGraphContextIdentifiersFromString` (the external
  syntax-query identifier extractor, out of scope per the spec) applied with
  `n := 5`; its arguments are the definition's URI, the language id and the
  snippet source text.
* `commonKeywords` is the stoplist membership test of `languages.ts`. -/
structure Env where
  definitions : String → Position → Except String (List Location)
  typeDefinitions : String → Position → Except String (List Location)
  implementations : String → Position → Except String (List Location)
  hover : String → Position → Except String (List Hover)
  textAt : Location → Except String String
  identifiers : String → String → String → List SymbolSnippetsRequest
  commonKeywords : String → Bool

/-! ## The engine monad -/

/-- State-with-error monad of the engine: an async JavaScript computation over
the module-level caches.  The state survives an error, because cache mutations
performed before a promise rejection persist. -/
def EngineM (α : Type) : Type := EngineState → Except String α × EngineState

namespace EngineM

def pureM (a : α) : EngineM α := fun st => (Except.ok a, st)

def bindM (m : EngineM α) (k : α → EngineM β) : EngineM β := fun st =>
  match m st with
  | (Except.ok a, st') => k a st'
  | (Except.error e, st') => (Except.error e, st')

instance : Monad EngineM where
  pure := pureM
  bind := bindM

def readState (f : EngineState → α) : EngineM α := fun st => (Except.ok (f st), st)

def modifyState (f : EngineState → EngineState) : EngineM Unit :=
  fun st => (Except.ok (), f st)

def liftExcept (x : Except String α) : EngineM α := fun st => (x, st)

def emitCall (e : CallEvent) : EngineM Unit :=
  fun st => (Except.ok (), { st with trace := st.trace ++ [e] })

@[simp] theorem pure_apply (a : α) (st : EngineState) :
    (Pure.pure a : EngineM α) st = (Except.ok a, st) := rfl

@[simp] theorem bind_apply (m : EngineM α) (k : α → EngineM β) (st : EngineState) :
    (m >>= k) st =
      match m st with
      | (Except.ok a, st') => k a st'
      | (Except.error e, st') => (Except.error e, st') := rfl

@[simp] theorem readState_apply (f : EngineState → α) (st : EngineState) :
    readState f st = (Except.ok (f st), st) := rfl

@[simp] theorem modifyState_apply (f : EngineState → EngineState) (st : EngineState) :
    modifyState f st = (Except.ok (), f st) := rfl

@[simp] theorem liftExcept_apply (x : Except String α) (st : EngineState) :
    liftExcept x st = (x, st) := rfl

@[simp] theorem emitCall_apply (e : CallEvent) (st : EngineState) :
    emitCall e st = (Except.ok (), { st with trace := st.trace ++ [e] }) := rfl

end EngineM

/-- Modelled from the spec: `createLimiter` / `limiter`
(`src/vscode/src/graph/lsp/limiter.ts` is not present under `src/`).
Per spec section 4.1 the limiter is an admission gate: it bounds how many
operations run concurrently and enforces a per-operation timeout, surfacing
the operation's own outcome otherwise.  In the sequential embedding admission
scheduling is a no-op and a timeout surfaces as a failed or empty provider
result, which the `Env` oracle already ranges over; so the limiter executes
the operation and propagates its outcome. -/
def limiter (operation : EngineM α) : EngineM α := operation

/-- Dispatch from a getter id to the corresponding provider oracle. -/
def getterFun (env : Env) : GetterId → String → Position → Except String (List Location)
  | GetterId.definitions => env.definitions
  | GetterId.typeDefinitions => env.typeDefinitions
  | GetterId.implementations => env.implementations

/-- The location getters of `lsp.ts` (`getDefinitionLocations`,
`getTypeDefinitionLocations`, `getImplementationLocations`): one provider
round-trip (recorded in the ghost trace), whose outcome is the oracle's.
`lsp.ts` has no try/catch around the provider command (its own comment reads
`TODO: ... Add try/catch and analytics`), so a provider rejection propagates
to the caller. -/
def callLocationGetter (env : Env) (getter : GetterId)
    (request : SymbolSnippetsRequest) (depth : Nat) : EngineM (List Location) := do
  EngineM.emitCall ⟨request, ProviderCall.location getter request.uri request.position, depth⟩
  EngineM.liftExcept (getterFun env getter request.uri request.position)

/-- `getHover` of `lsp.ts`, called on the resolved definition location. -/
def callHover (env : Env) (request : SymbolSnippetsRequest) (location : Location)
    (depth : Nat) : EngineM (List Hover) := do
  EngineM.emitCall ⟨request, ProviderCall.hoverAt location.uri location.range.start, depth⟩
  EngineM.liftExcept (env.hover location.uri location.range.start)

/-- `getTextFromLocation` of `lsp.ts`. -/
def callTextAt (env : Env) (request : SymbolSnippetsRequest) (location : Location)
    (depth : Nat) : EngineM String := do
  EngineM.emitCall ⟨request, ProviderCall.textAt location, depth⟩
  EngineM.liftExcept (env.textAt location)

/-! ## The engine -/

/-- The per-parent step of `updateParentDefinitionKeys`: the body of its
`for..of` loop — if the definition cache holds an entry at the parent path
and that entry has a `relatedDefinitionKeys` set, add the given key to it
(the source's optional chaining
`?.get(...)?.relatedDefinitionKeys?.add(...)`). -/
def updateParentStep (key : DefinitionCacheEntryPath) (acc : EngineState)
    (parentPath : DefinitionCacheEntryPath) : EngineState :=
  match DefinitionCache.getPath acc parentPath with
  | none => acc
  | some entry =>
      match entry.relatedDefinitionKeys with
      | none => acc
      | some keys =>
          DefinitionCache.setPath acc parentPath
            { entry with relatedDefinitionKeys := some (SetList.add keys key) }

def updateParentDefinitionKeys
    (parentDefinitionCacheEntryPaths : Option (SetList DefinitionCacheEntryPath))
    (key : DefinitionCacheEntryPath) (st : EngineState) : EngineState :=
  match parentDefinitionCacheEntryPaths with
  | none => st
  | some paths => paths.foldl (updateParentStep key) st

/- `updateParentDefinitionKeys` mirrors the source loop: for each parent
entry path, if the definition cache holds an entry there and that entry has
a `relatedDefinitionKeys` set, add the given key to it. -/

/-- `getSnippetForLocationGetter` (the inner function of
`getSymbolSnippetForNodeType`): one location-getter attempt. -/
def getSnippetForLocationGetter (env : Env) (locationGetter : GetterId)
    (symbolSnippetRequest : SymbolSnippetsRequest)
    (parentDefinitionCacheEntryPaths : Option (SetList DefinitionCacheEntryPath))
    (depth : Nat) : EngineM (Option SymbolSnippetInflightRequest) := do
  let cachedLocations ← EngineM.readState
    (fun st => DefinitionLocationCache.get st symbolSnippetRequest)
  let definitionLocations ←
    match cachedLocations with
    | some locations => Pure.pure locations
    | none => limiter (callLocationGetter env locationGetter symbolSnippetRequest depth)
  match definitionLocations with
  | [] => do
      EngineM.modifyState (fun st => DefinitionLocationCache.delete st symbolSnippetRequest)
      Pure.pure none
  | definitionLocation :: _ => do
      let definitionUriString := definitionLocation.uri
      let definitionCacheKey := toDefinitionCacheKey definitionLocation
      let symbolContextSnippet : SymbolSnippetInflightRequest :=
        { key := (definitionUriString, definitionCacheKey)
          uri := definitionUriString
          startLine := definitionLocation.range.start.line
          endLine := definitionLocation.range.stop.line
          symbol := symbolSnippetRequest.symbolName
          location := definitionLocation
          content := none
          relatedDefinitionKeys := none }
      let cachedDefinition ← EngineM.readState
        (fun st => DefinitionCache.get st definitionLocation)
      match cachedDefinition with
      | some cd => do
          EngineM.modifyState
            (updateParentDefinitionKeys parentDefinitionCacheEntryPaths
              symbolContextSnippet.key)
          Pure.pure (some { symbolContextSnippet with
            content := some cd.content
            relatedDefinitionKeys := cd.relatedDefinitionKeys })
      | none => do
          let definitionString? ←
            match symbolSnippetRequest.nodeType with
            | "property_identifier" | "type_identifier" => do
                let s ← callTextAt env symbolSnippetRequest definitionLocation depth
                Pure.pure (some s)
            | _ => do
                let hoverContent ←
                  limiter (callHover env symbolSnippetRequest definitionLocation depth)
                let definitionString :=
                  String.intercalate newline (extractHoverContent hoverContent)
                if isUnhelpfulSymbolSnippet symbolSnippetRequest.symbolName
                    definitionString then do
                  let fallback ←
                    callTextAt env symbolSnippetRequest definitionLocation depth
                  if isUnhelpfulSymbolSnippet symbolSnippetRequest.symbolName fallback then
                    Pure.pure none
                  else
                    Pure.pure (some fallback)
                else
                  Pure.pure (some definitionString)
          match definitionString? with
          | none =>
              -- the early `return symbolContextSnippet` of the source: keep the
              -- bare snippet (no content) and do not touch the location cache
              Pure.pure (some symbolContextSnippet)
          | some definitionString => do
              EngineM.modifyState
                (fun st =>
                  DefinitionLocationCache.set st symbolSnippetRequest definitionLocations)
              Pure.pure (some { symbolContextSnippet with content := some definitionString })

/-- The getter order chosen by `getSymbolSnippetForNodeType`. -/
def gettersFor (nodeType : String) : List GetterId :=
  if nodeType = "property_identifier" ∨ nodeType = "type_identifier" then
    [GetterId.definitions, GetterId.typeDefinitions, GetterId.implementations]
  else
    [GetterId.typeDefinitions, GetterId.implementations, GetterId.definitions]

/-- The getter loop of `getSymbolSnippetForNodeType`: each iteration overwrites
the accumulator with the attempt's result and breaks as soon as the result has
content. -/
def tryGetters (env : Env) (symbolSnippetRequest : SymbolSnippetsRequest)
    (parentDefinitionCacheEntryPaths : Option (SetList DefinitionCacheEntryPath))
    (depth : Nat) :
    List GetterId → Option SymbolSnippetInflightRequest →
      EngineM (Option SymbolSnippetInflightRequest)
  | [], last => Pure.pure last
  | getter :: rest, _last => do
      let r ← getSnippetForLocationGetter env getter symbolSnippetRequest
        parentDefinitionCacheEntryPaths depth
      match r with
      | some s =>
          if s.content.isSome then
            Pure.pure (some s)
          else
            tryGetters env symbolSnippetRequest parentDefinitionCacheEntryPaths
              depth rest (some s)
      | none =>
          tryGetters env symbolSnippetRequest parentDefinitionCacheEntryPaths
            depth rest none

/-- The tail of `getSymbolSnippetForNodeType` (lines 165-228 of the source),
factored as its own definition for statement granularity.  `recurse` is the
recursive call to `getSymbolContextSnippetsRecursive` with the decremented
recursion limit.  The returned snippet's `relatedDefinitionKeys` is re-read
from the cache after the recursion: in the source the returned object spreads
`definitionCacheEntry`, whose `relatedDefinitionKeys` is the same mutable
`Set` instance stored in the cache, so additions made by descendants during
the recursion are visible in the returned snippet. -/
def finishSymbolSnippet (env : Env)
    (recurse : List SymbolSnippetsRequest →
      Option (SetList DefinitionCacheEntryPath) →
      EngineM (List SymbolSnippetInflightRequest))
    (symbolSnippetRequest : SymbolSnippetsRequest)
    (parentDefinitionCacheEntryPaths : Option (SetList DefinitionCacheEntryPath))
    (loopResult : Option SymbolSnippetInflightRequest) :
    EngineM (Option SymbolSnippetInflightRequest) :=
  match loopResult with
  | none => Pure.pure none
  | some symbolContextSnippet =>
    match symbolContextSnippet.content with
    | none => do
        EngineM.modifyState
          (fun st => DefinitionCache.delete st symbolContextSnippet.location)
        Pure.pure none
    | some definitionString => do
        EngineM.modifyState
          (fun st => DefinitionCache.set st symbolContextSnippet.location
            { content := definitionString, relatedDefinitionKeys := none })
        EngineM.modifyState
          (updateParentDefinitionKeys parentDefinitionCacheEntryPaths
            symbolContextSnippet.key)
        let symbolsSnippetRequests :=
          ((env.identifiers symbolContextSnippet.location.uri
              symbolSnippetRequest.languageId definitionString).filter
            (fun r =>
              decide (symbolSnippetRequest.symbolName ≠ r.symbolName) &&
                !(env.commonKeywords r.symbolName))).map
            (fun r =>
              { r with
                position :=
                  r.position.translate symbolContextSnippet.location.range.start.line
                    symbolContextSnippet.location.range.start.character })
        match symbolsSnippetRequests with
        | [] => Pure.pure (some symbolContextSnippet)
        | _ :: _ => do
            let definitionCacheEntry : DefinitionCacheEntry :=
              { content := definitionString, relatedDefinitionKeys := some [] }
            EngineM.modifyState
              (fun st => DefinitionCache.set st symbolContextSnippet.location
                definitionCacheEntry)
            let _ ← recurse symbolsSnippetRequests
              (some (SetList.ofList
                (symbolContextSnippet.key :: parentDefinitionCacheEntryPaths.getD [])))
            let entryAfter ← EngineM.readState
              (fun st => DefinitionCache.get st symbolContextSnippet.location)
            let related :=
              match entryAfter with
              | some e => e.relatedDefinitionKeys
              | none => some []
            Pure.pure (some { symbolContextSnippet with
              content := some definitionString
              relatedDefinitionKeys := related })

/-- `getSymbolSnippetForNodeType`: the getter loop followed by the commit
phase.  `recurse` stands for the recursive engine call at the decremented
recursion limit (the only use the source makes of its `recursionLimit`
parameter is to pass `recursionLimit - 1` to that call). -/
def getSymbolSnippetForNodeType (env : Env)
    (recurse : List SymbolSnippetsRequest →
      Option (SetList DefinitionCacheEntryPath) →
      EngineM (List SymbolSnippetInflightRequest))
    (symbolSnippetRequest : SymbolSnippetsRequest)
    (parentDefinitionCacheEntryPaths : Option (SetList DefinitionCacheEntryPath))
    (depth : Nat) : EngineM (Option SymbolSnippetInflightRequest) := do
  let loopResult ← tryGetters env symbolSnippetRequest parentDefinitionCacheEntryPaths
    depth (gettersFor symbolSnippetRequest.nodeType) none
  finishSymbolSnippet env recurse symbolSnippetRequest parentDefinitionCacheEntryPaths
    loopResult

/-- The `Promise.all` fan-out of `getSymbolContextSnippetsRecursive` over the
sibling requests, sequentialized left-to-right, followed by
`.flat().filter(isDefined)`. -/
def resolveSymbolRequests (env : Env)
    (recurse : List SymbolSnippetsRequest →
      Option (SetList DefinitionCacheEntryPath) →
      EngineM (List SymbolSnippetInflightRequest)) :
    List SymbolSnippetsRequest → Option (SetList DefinitionCacheEntryPath) → Nat →
      EngineM (List SymbolSnippetInflightRequest)
  | [], _, _ => Pure.pure []
  | request :: rest, parents, depth => do
      let s? ← getSymbolSnippetForNodeType env recurse request parents depth
      let others ← resolveSymbolRequests env recurse rest parents depth
      Pure.pure
        (match s? with
         | some s => s :: others
         | none => others)

/-- `getSymbolContextSnippetsRecursive`.  The `recursionLimit` is the first
argument; at `0` the engine returns `[]` without touching any request.  The
final `Nat` argument is the ghost expansion depth (hops from the initial
request set), used only to tag trace events. -/
def getSymbolContextSnippetsRecursive (env : Env) :
    Nat → List SymbolSnippetsRequest → Option (SetList DefinitionCacheEntryPath) →
      Nat → EngineM (List SymbolSnippetInflightRequest)
  | 0, _, _, _ => Pure.pure []
  | fuel + 1, reqs, parents, depth =>
      resolveSymbolRequests env
        (fun rs ps => getSymbolContextSnippetsRecursive env fuel rs ps (depth + 1))
        reqs parents depth

/-- The per-snippet body of the result assembler of `getSymbolContextSnippets`
(the `result.flatMap` block): replace the content of a snippet that has
`relatedDefinitionKeys` by the newline-join of its related definitions'
cached contents (skipping its own key and keys absent from the definition
cache) followed by its own content.  At this point of the source the
snippet's `content` is a present `string`; `.getD ""` totalizes the
projection. -/
def mergeRelatedDefinitions (st : EngineState)
    (snippet : SymbolSnippetInflightRequest) : SymbolSnippetInflightRequest :=
  match snippet.relatedDefinitionKeys with
  | none => snippet
  | some keys =>
      let relatedDefinitions := keys.filterMap
        (fun key =>
          if key = snippet.key then none
          else (DefinitionCache.getPath st key).map (fun e => e.content))
      { snippet with
        content :=
          some (String.intercalate newline
            (relatedDefinitions ++ [snippet.content.getD ""])) }

/-- `getSymbolContextSnippets` (exported): run the recursive engine, then
assemble related definitions into each resulting snippet. -/
def getSymbolContextSnippets (env : Env) (recursionLimit : Nat)
    (symbolsSnippetRequests : List SymbolSnippetsRequest) :
    EngineM (List SymbolSnippetInflightRequest) := do
  let result ← getSymbolContextSnippetsRecursive env recursionLimit
    symbolsSnippetRequests none 0
  let st ← EngineM.readState id
  Pure.pure (result.map (mergeRelatedDefinitions st))

/-! ## Characterization lemmas for the state operations -/

section StateLemmas

@[simp] theorem DefinitionCache.set_trace (st : EngineState) (l : Location)
    (e : DefinitionCacheEntry) : (DefinitionCache.set st l e).trace = st.trace := rfl

@[simp] theorem DefinitionCache.set_locationCache (st : EngineState) (l : Location)
    (e : DefinitionCacheEntry) :
    (DefinitionCache.set st l e).locationCache = st.locationCache := rfl

@[simp] theorem DefinitionCache.set_documentMap (st : EngineState) (l : Location)
    (e : DefinitionCacheEntry) :
    (DefinitionCache.set st l e).documentToLocationCacheKeyMap
      = st.documentToLocationCacheKeyMap := rfl

@[simp] theorem DefinitionCache.setPath_trace (st : EngineState)
    (p : DefinitionCacheEntryPath) (e : DefinitionCacheEntry) :
    (DefinitionCache.setPath st p e).trace = st.trace := rfl

@[simp] theorem DefinitionCache.setPath_locationCache (st : EngineState)
    (p : DefinitionCacheEntryPath) (e : DefinitionCacheEntry) :
    (DefinitionCache.setPath st p e).locationCache = st.locationCache := rfl

@[simp] theorem DefinitionCache.setPath_documentMap (st : EngineState)
    (p : DefinitionCacheEntryPath) (e : DefinitionCacheEntry) :
    (DefinitionCache.setPath st p e).documentToLocationCacheKeyMap
      = st.documentToLocationCacheKeyMap := rfl

@[simp] theorem DefinitionCache.delete_trace (st : EngineState) (l : Location) :
    (DefinitionCache.delete st l).trace = st.trace := by
  unfold DefinitionCache.delete
  cases Map.find? st.definitionCache l.uri <;> rfl

@[simp] theorem DefinitionCache.delete_locationCache (st : EngineState) (l : Location) :
    (DefinitionCache.delete st l).locationCache = st.locationCache := by
  unfold DefinitionCache.delete
  cases Map.find? st.definitionCache l.uri <;> rfl

@[simp] theorem DefinitionCache.delete_documentMap (st : EngineState) (l : Location) :
    (DefinitionCache.delete st l).documentToLocationCacheKeyMap
      = st.documentToLocationCacheKeyMap := by
  unfold DefinitionCache.delete
  cases Map.find? st.definitionCache l.uri <;> rfl

@[simp] theorem DefinitionLocationCache.addToMap_trace (st : EngineState) (u : String)
    (ck : LocationCacheEntryPath) :
    (DefinitionLocationCache.addToDocumentToCacheKeyMap st u ck).trace = st.trace := rfl

@[simp] theorem DefinitionLocationCache.addToMap_definitionCache (st : EngineState)
    (u : String) (ck : LocationCacheEntryPath) :
    (DefinitionLocationCache.addToDocumentToCacheKeyMap st u ck).definitionCache
      = st.definitionCache := rfl

@[simp] theorem DefinitionLocationCache.addToMap_locationCache (st : EngineState)
    (u : String) (ck : LocationCacheEntryPath) :
    (DefinitionLocationCache.addToDocumentToCacheKeyMap st u ck).locationCache
      = st.locationCache := rfl

theorem foldl_proj_eq {β γ : Type} (proj : EngineState → γ)
    (f : EngineState → β → EngineState)
    (hf : ∀ st b, proj (f st b) = proj st) :
    ∀ (l : List β) (st : EngineState), proj (List.foldl f st l) = proj st := by
  intro l
  induction l with
  | nil => intro st; rfl
  | cons b l ih => intro st; rw [List.foldl_cons, ih, hf]

@[simp] theorem DefinitionLocationCache.setLoc_trace (st : EngineState)
    (r : SymbolSnippetsRequest) (locs : List Location) :
    (DefinitionLocationCache.set st r locs).trace = st.trace := by
  unfold DefinitionLocationCache.set
  refine (foldl_proj_eq EngineState.trace
    (fun acc location =>
      DefinitionLocationCache.addToDocumentToCacheKeyMap acc location.uri
        (r.uri, toLocationCacheKey r))
    (fun st b => rfl) locs _).trans ?_
  rfl

@[simp] theorem DefinitionLocationCache.set_definitionCache (st : EngineState)
    (r : SymbolSnippetsRequest) (locs : List Location) :
    (DefinitionLocationCache.set st r locs).definitionCache = st.definitionCache := by
  unfold DefinitionLocationCache.set
  refine (foldl_proj_eq EngineState.definitionCache
    (fun acc location =>
      DefinitionLocationCache.addToDocumentToCacheKeyMap acc location.uri
        (r.uri, toLocationCacheKey r))
    (fun st b => rfl) locs _).trans ?_
  rfl

@[simp] theorem DefinitionLocationCache.deleteLoc_trace (st : EngineState)
    (r : SymbolSnippetsRequest) :
    (DefinitionLocationCache.delete st r).trace = st.trace := by
  unfold DefinitionLocationCache.delete
  cases Map.find? st.locationCache r.uri <;> rfl

@[simp] theorem DefinitionLocationCache.delete_definitionCache (st : EngineState)
    (r : SymbolSnippetsRequest) :
    (DefinitionLocationCache.delete st r).definitionCache = st.definitionCache := by
  unfold DefinitionLocationCache.delete
  cases Map.find? st.locationCache r.uri <;> rfl

@[simp] theorem updateParentDefinitionKeys_trace
    (ps : Option (SetList DefinitionCacheEntryPath)) (k : DefinitionCacheEntryPath)
    (st : EngineState) :
    (updateParentDefinitionKeys ps k st).trace = st.trace := by
  unfold updateParentDefinitionKeys
  cases ps with
  | none => rfl
  | some paths =>
      rw [foldl_proj_eq EngineState.trace]
      intro st' p
      unfold updateParentStep
      cases hE : DefinitionCache.getPath st' p with
      | none => simp [hE]
      | some e =>
          cases hR : e.relatedDefinitionKeys with
          | none => simp [hE, hR]
          | some keys => simp [hE, hR]

@[simp] theorem updateParentDefinitionKeys_locationCache
    (ps : Option (SetList DefinitionCacheEntryPath)) (k : DefinitionCacheEntryPath)
    (st : EngineState) :
    (updateParentDefinitionKeys ps k st).locationCache = st.locationCache := by
  unfold updateParentDefinitionKeys
  cases ps with
  | none => rfl
  | some paths =>
      rw [foldl_proj_eq EngineState.locationCache]
      intro st' p
      unfold updateParentStep
      cases hE : DefinitionCache.getPath st' p with
      | none => simp [hE]
      | some e =>
          cases hR : e.relatedDefinitionKeys with
          | none => simp [hE, hR]
          | some keys => simp [hE, hR]

@[simp] theorem updateParentDefinitionKeys_documentMap
    (ps : Option (SetList DefinitionCacheEntryPath)) (k : DefinitionCacheEntryPath)
    (st : EngineState) :
    (updateParentDefinitionKeys ps k st).documentToLocationCacheKeyMap
      = st.documentToLocationCacheKeyMap := by
  unfold updateParentDefinitionKeys
  cases ps with
  | none => rfl
  | some paths =>
      rw [foldl_proj_eq EngineState.documentToLocationCacheKeyMap]
      intro st' p
      unfold updateParentStep
      cases hE : DefinitionCache.getPath st' p with
      | none => simp [hE]
      | some e =>
          cases hR : e.relatedDefinitionKeys with
          | none => simp [hE, hR]
          | some keys => simp [hE, hR]

@[simp] theorem DefinitionCache.get_trace_update (st : EngineState) (t : List CallEvent)
    (l : Location) :
    DefinitionCache.get { st with trace := t } l = DefinitionCache.get st l := rfl

@[simp] theorem DefinitionCache.getPath_trace_update (st : EngineState)
    (t : List CallEvent) (p : DefinitionCacheEntryPath) :
    DefinitionCache.getPath { st with trace := t } p = DefinitionCache.getPath st p := rfl

@[simp] theorem DefinitionLocationCache.getLoc_trace_update (st : EngineState)
    (t : List CallEvent) (r : SymbolSnippetsRequest) :
    DefinitionLocationCache.get { st with trace := t } r
      = DefinitionLocationCache.get st r := rfl

/-- `DefinitionCache.get` is `getPath` at the location's cache coordinates. -/
theorem DefinitionCache.get_eq_getPath (st : EngineState) (l : Location) :
    DefinitionCache.get st l = DefinitionCache.getPath st (l.uri, toDefinitionCacheKey l) := rfl

/-- `DefinitionCache.get` depends only on the `definitionCache` component. -/
theorem DefinitionCache.get_congr (st st' : EngineState) (l : Location)
    (h : st.definitionCache = st'.definitionCache) :
    DefinitionCache.get st l = DefinitionCache.get st' l := by
  unfold DefinitionCache.get
  rw [h]

theorem DefinitionCache.getPath_congr (st st' : EngineState)
    (p : DefinitionCacheEntryPath) (h : st.definitionCache = st'.definitionCache) :
    DefinitionCache.getPath st p = DefinitionCache.getPath st' p := by
  unfold DefinitionCache.getPath
  rw [h]

theorem DefinitionLocationCache.getLoc_congr (st st' : EngineState)
    (r : SymbolSnippetsRequest) (h : st.locationCache = st'.locationCache) :
    DefinitionLocationCache.get st r = DefinitionLocationCache.get st' r := by
  unfold DefinitionLocationCache.get
  rw [h]

/-- `getPath` after `setPath`. -/
theorem DefinitionCache.getPath_setPath (st : EngineState)
    (p q : DefinitionCacheEntryPath) (e : DefinitionCacheEntry) :
    DefinitionCache.getPath (DefinitionCache.setPath st p e) q
      = if q = p then some e else DefinitionCache.getPath st q := by
  unfold DefinitionCache.getPath DefinitionCache.setPath
  by_cases hu : q.1 = p.1
  · by_cases hk : q.2 = p.2
    · have hq : q = p := Prod.ext hu hk
      simp only [hq, Map.find?_insert_self, if_pos rfl]
      simp
    · have hq : ¬ q = p := fun h => hk (congrArg Prod.snd h)
      simp only [hu, Map.find?_insert_self, if_neg hq]
      rw [Map.find?_insert_ne _ _ _ _ hk]
      cases hfind : Map.find? st.definitionCache p.1 with
      | none => simp [hu, hfind, Option.getD, Map.find?_empty]
      | some dc => simp [hu, hfind, Option.getD]
  · have hq : ¬ q = p := fun h => hu (congrArg Prod.fst h)
    rw [if_neg hq, Map.find?_insert_ne _ _ _ _ hu]

/-- `getPath` after `set` (a `set` at location `l` is a `setPath` at `l`'s
cache coordinates). -/
theorem DefinitionCache.getPath_set (st : EngineState) (l : Location)
    (q : DefinitionCacheEntryPath) (e : DefinitionCacheEntry) :
    DefinitionCache.getPath (DefinitionCache.set st l e) q
      = if q = (l.uri, toDefinitionCacheKey l) then some e
        else DefinitionCache.getPath st q := by
  have h : DefinitionCache.set st l e
      = DefinitionCache.setPath st (l.uri, toDefinitionCacheKey l) e := rfl
  rw [h, DefinitionCache.getPath_setPath]

/-- `get` after `set`. -/
theorem DefinitionCache.get_set (st : EngineState) (l l' : Location)
    (e : DefinitionCacheEntry) :
    DefinitionCache.get (DefinitionCache.set st l' e) l
      = if (l.uri, toDefinitionCacheKey l) = (l'.uri, toDefinitionCacheKey l')
        then some e else DefinitionCache.get st l := by
  rw [DefinitionCache.get_eq_getPath, DefinitionCache.getPath_set,
    DefinitionCache.get_eq_getPath]

/-- `getPath` after `delete`. -/
theorem DefinitionCache.getPath_delete (st : EngineState) (l : Location)
    (q : DefinitionCacheEntryPath) :
    DefinitionCache.getPath (DefinitionCache.delete st l) q
      = if q = (l.uri, toDefinitionCacheKey l) then none
        else DefinitionCache.getPath st q := by
  unfold DefinitionCache.getPath DefinitionCache.delete
  by_cases hu : q.1 = l.uri
  · cases hfind : Map.find? st.definitionCache l.uri with
    | none =>
        by_cases hq : q = (l.uri, toDefinitionCacheKey l)
        · simp only [if_pos hq, hq]
          simp [hfind]
        · simp only [if_neg hq]
    | some dc =>
        by_cases hk : q.2 = toDefinitionCacheKey l
        · have hq : q = (l.uri, toDefinitionCacheKey l) := Prod.ext hu hk
          simp only [if_pos hq, hq, hfind]
          simp only [Map.find?_insert_self]
          simp [Map.find?_erase_self]
        · have hq : ¬ q = (l.uri, toDefinitionCacheKey l) := fun h =>
            hk (congrArg Prod.snd h)
          simp only [if_neg hq, hfind, hu, Map.find?_insert_self]
          rw [Map.find?_erase_ne _ _ _ hk]
  · have hq : ¬ q = (l.uri, toDefinitionCacheKey l) := fun h =>
      hu (congrArg Prod.fst h)
    cases hfind : Map.find? st.definitionCache l.uri with
    | none => simp only [if_neg hq, hfind]
    | some dc =>
        simp only [if_neg hq, hfind]
        rw [Map.find?_insert_ne _ _ _ _ hu]

theorem DefinitionCache.get_delete (st : EngineState) (l l' : Location) :
    DefinitionCache.get (DefinitionCache.delete st l') l
      = if (l.uri, toDefinitionCacheKey l) = (l'.uri, toDefinitionCacheKey l')
        then none else DefinitionCache.get st l := by
  rw [DefinitionCache.get_eq_getPath, DefinitionCache.getPath_delete,
    DefinitionCache.get_eq_getPath]

/-- The slot of a request in the location cache. -/
def locationSlot (r : SymbolSnippetsRequest) : String × LocationCacheKey :=
  (r.uri, toLocationCacheKey r)

theorem DefinitionLocationCache.get_slot_congr (st : EngineState)
    (r r' : SymbolSnippetsRequest) (h : locationSlot r = locationSlot r') :
    DefinitionLocationCache.get st r = DefinitionLocationCache.get st r' := by
  unfold DefinitionLocationCache.get
  have h1 : r.uri = r'.uri := congrArg Prod.fst h
  have h2 : toLocationCacheKey r = toLocationCacheKey r' := congrArg Prod.snd h
  rw [h1, h2]

/-- `DefinitionLocationCache.get` after `DefinitionLocationCache.set`. -/
theorem DefinitionLocationCache.getLoc_set (st : EngineState)
    (r r' : SymbolSnippetsRequest) (locs : List Location) :
    DefinitionLocationCache.get (DefinitionLocationCache.set st r' locs) r
      = if locationSlot r = locationSlot r' then some locs
        else DefinitionLocationCache.get st r := by
  unfold DefinitionLocationCache.get DefinitionLocationCache.set
  rw [show ∀ st0 : EngineState,
      (List.foldl
        (fun acc location =>
          DefinitionLocationCache.addToDocumentToCacheKeyMap acc location.uri
            (r'.uri, toLocationCacheKey r')) st0 locs).locationCache
        = st0.locationCache from
    fun st0 => foldl_proj_eq EngineState.locationCache
      (fun acc location =>
        DefinitionLocationCache.addToDocumentToCacheKeyMap acc location.uri
          (r'.uri, toLocationCacheKey r'))
      (fun st b => rfl) locs st0]
  by_cases hu : r.uri = r'.uri
  · by_cases hk : toLocationCacheKey r = toLocationCacheKey r'
    · have hs : locationSlot r = locationSlot r' := by
        unfold locationSlot; rw [hu, hk]
      simp only [if_pos hs, hu, Map.find?_insert_self, hk]
    · have hs : ¬ locationSlot r = locationSlot r' := fun h =>
        hk (congrArg Prod.snd h)
      simp only [if_neg hs, hu, Map.find?_insert_self]
      rw [Map.find?_insert_ne _ _ _ _ hk]
      cases hfind : Map.find? st.locationCache r'.uri with
      | none => simp [hu, hfind, Map.find?_empty]
      | some dc => simp [hu, hfind]
  · have hs : ¬ locationSlot r = locationSlot r' := fun h =>
      hu (congrArg Prod.fst h)
    simp only [if_neg hs]
    rw [Map.find?_insert_ne _ _ _ _ hu]

/-- `DefinitionLocationCache.get` after `DefinitionLocationCache.delete`. -/
theorem DefinitionLocationCache.getLoc_delete (st : EngineState)
    (r r' : SymbolSnippetsRequest) :
    DefinitionLocationCache.get (DefinitionLocationCache.delete st r') r
      = if locationSlot r = locationSlot r' then none
        else DefinitionLocationCache.get st r := by
  unfold DefinitionLocationCache.get DefinitionLocationCache.delete
  by_cases hu : r.uri = r'.uri
  · cases hfind : Map.find? st.locationCache r'.uri with
    | none =>
        by_cases hs : locationSlot r = locationSlot r'
        · simp only [if_pos hs, hu, hfind]
        · simp only [if_neg hs, hfind]
    | some dc =>
        by_cases hk : toLocationCacheKey r = toLocationCacheKey r'
        · have hs : locationSlot r = locationSlot r' := by
            unfold locationSlot; rw [hu, hk]
          simp only [if_pos hs, hu, hfind, Map.find?_insert_self, hk]
          simp [Map.find?_erase_self]
        · have hs : ¬ locationSlot r = locationSlot r' := fun h =>
            hk (congrArg Prod.snd h)
          simp only [if_neg hs, hu, hfind, Map.find?_insert_self]
          rw [Map.find?_erase_ne _ _ _ hk]
  · have hs : ¬ locationSlot r = locationSlot r' := fun h =>
      hu (congrArg Prod.fst h)
    cases hfind : Map.find? st.locationCache r'.uri with
    | none => simp only [if_neg hs, hfind]
    | some dc =>
        simp only [if_neg hs, hfind]
        rw [Map.find?_insert_ne _ _ _ _ hu]

end StateLemmas

/-- Decidable equality for `Except` results (used to settle concrete runs). -/
instance {ε α : Type} [DecidableEq ε] [DecidableEq α] : DecidableEq (Except ε α) :=
  fun x y =>
    match x, y with
    | Except.ok a, Except.ok b =>
        if h : a = b then Decidable.isTrue (by rw [h])
        else Decidable.isFalse (fun hc => h (Except.ok.injEq a b ▸ congrArg id hc |> fun hh => by
          cases hc; rfl))
    | Except.ok a, Except.error e => Decidable.isFalse (fun hc => Except.noConfusion hc)
    | Except.error e, Except.ok a => Decidable.isFalse (fun hc => Except.noConfusion hc)
    | Except.error e, Except.error f =>
        if h : e = f then Decidable.isTrue (by rw [h])
        else Decidable.isFalse (fun hc => h (by cases hc; rfl))

/-! ## Shared concrete fixtures -/

def aUri : String := "file:///a.ts"
def bUri : String := "file:///b.ts"
def cUri : String := "file:///c.ts"

/-! ## Claim C1 -/

def c1Request : SymbolSnippetsRequest :=
  { symbolName := "foo", uri := aUri, position := ⟨0, 4⟩
    nodeType := "identifier", languageId := "typescript" }

def c1Location : Location :=
  { uri := bUri, range := { start := ⟨5, 0⟩, stop := ⟨7, 0⟩ } }

/-- A cache state in which document `a` holds a location-cache entry whose
resolution target is document `b` (recorded in the reverse index under `b`),
and document `b` holds a definition-cache bucket. -/
def c1State : EngineState :=
  { definitionCache :=
      Map.insert Map.empty bUri
        (Map.insert Map.empty (toDefinitionCacheKey c1Location)
          { content := "function foo() {}", relatedDefinitionKeys := none })
    locationCache :=
      Map.insert Map.empty aUri
        (Map.insert Map.empty (toLocationCacheKey c1Request) [c1Location])
    documentToLocationCacheKeyMap :=
      Map.insert Map.empty bUri [(aUri, toLocationCacheKey c1Request)]
    trace := [] }

/-- C1: after `invalidateDocumentCache(D)` the Definition Cache bucket for `D`
is gone and the location-cache entry targeting `D` is evicted, but — contrary
to the claim — the evicted key is NOT removed from the reverse index when the
requesting document differs from `D`: `invalidateEntriesForDocument` shadows
its `uri` parameter with the requesting URI from `cacheKey.split('::')` and
removes the key from the requesting document's (empty) index bucket instead,
so the stale key remains indexed under `D`. -/
theorem invalidateDocumentCache_cross_document_bug :
    (Map.find? (invalidateDocumentCache c1State bUri).definitionCache bUri = none) ∧
    (DefinitionLocationCache.get (invalidateDocumentCache c1State bUri) c1Request = none) ∧
    (Map.find? (invalidateDocumentCache c1State bUri).documentToLocationCacheKeyMap bUri
      = some [(aUri, toLocationCacheKey c1Request)]) := by
  decide

/-! ## Claim C3 -/

def c3ThrowMessage : String := "provider exception"

def c3BadRequest : SymbolSnippetsRequest :=
  { symbolName := "foo", uri := aUri, position := ⟨0, 0⟩
    nodeType := "identifier", languageId := "typescript" }

def c3GoodRequest : SymbolSnippetsRequest :=
  { symbolName := "bar", uri := aUri, position := ⟨1, 0⟩
    nodeType := "identifier", languageId := "typescript" }

def c3Location : Location :=
  { uri := bUri, range := { start := ⟨3, 0⟩, stop := ⟨3, 10⟩ } }

/-- Providers for C3: the type-definition provider (the first getter tried for
an `identifier` node) throws for the symbol at position `(0,0)` and succeeds
for the symbol at `(1,0)`. -/
def c3Env : Env :=
  { definitions := fun _ _ => Except.ok []
    typeDefinitions := fun _ p =>
      if p = ⟨0, 0⟩ then Except.error c3ThrowMessage else Except.ok [c3Location]
    implementations := fun _ _ => Except.ok []
    hover := fun _ _ => Except.ok [⟨["```\nconst bar = 1\n```"]⟩]
    textAt := fun _ => Except.ok "const bar = 1"
    identifiers := fun _ _ _ => []
    commonKeywords := fun _ => false }

/-- C3: a provider exception is NOT caught at the call site (`lsp.ts` carries
a `TODO: Add try/catch` and the engine has no handler): the overall
`getSymbolContextSnippets` promise rejects with the provider's exception, and
the other symbol of the same call — which resolves fine on its own (second
conjunct) — is aborted with it. -/
theorem providerException_rejects_getSymbolContextSnippets :
    ((getSymbolContextSnippets c3Env 1 [c3BadRequest, c3GoodRequest]
        EngineState.empty).1 = Except.error c3ThrowMessage) ∧
    ((getSymbolContextSnippets c3Env 1 [c3GoodRequest]
        EngineState.empty).1.isOk = true) := by
  decide

/-! ## Claim C5 -/

def c5SymbolName : String := "foo"
def c5FallbackText : String := "bar"

def c5Request : SymbolSnippetsRequest :=
  { symbolName := c5SymbolName, uri := aUri, position := ⟨0, 0⟩
    nodeType := "identifier", languageId := "typescript" }

def c5Location : Location :=
  { uri := bUri, range := { start := ⟨1, 2⟩, stop := ⟨3, 4⟩ } }

/-- Providers for C5: every location getter resolves to the same location;
the hover there is empty (judged unhelpful) and the verbatim source text does
not contain the symbol name (also judged unhelpful). -/
def c5Env : Env :=
  { definitions := fun _ _ => Except.ok [c5Location]
    typeDefinitions := fun _ _ => Except.ok [c5Location]
    implementations := fun _ _ => Except.ok [c5Location]
    hover := fun _ _ => Except.ok []
    textAt := fun _ => Except.ok c5FallbackText
    identifiers := fun _ _ _ => []
    commonKeywords := fun _ => false }

/-- C5 counterexample: with both the hover-derived text and the verbatim
source text judged unhelpful (first two conjuncts), the engine does NOT keep
the bare candidate in its result: `getSymbolContextSnippets` returns the
empty list (the contentless snippet is discarded at the end of
`getSymbolSnippetForNodeType`, which logs, deletes the definition-cache slot
and returns `undefined`). -/
theorem bare_candidate_dropped_counterexample :
    (isUnhelpfulSymbolSnippet c5SymbolName
      (String.intercalate newline (extractHoverContent [])) = true) ∧
    (isUnhelpfulSymbolSnippet c5SymbolName c5FallbackText = true) ∧
    ((getSymbolContextSnippets c5Env 1 [c5Request] EngineState.empty).1
      = Except.ok []) := by
  decide

/-- C5 amended: within a single getter attempt
(`getSnippetForLocationGetter`), when the hover-derived text and the verbatim
source text are both judged unhelpful, the attempt returns the bare snippet —
symbol name and location, no content — rather than `undefined`, and writes
nothing to the caches (the state changes only by the two ghost trace events);
the candidate is only dropped later, by the surrounding
`getSymbolSnippetForNodeType`, if no getter ever yields content. -/
theorem unhelpful_extraction_keeps_bare_snippet_in_attempt
    (env : Env) (g : GetterId) (req : SymbolSnippetsRequest)
    (parents : Option (SetList DefinitionCacheEntryPath)) (depth : Nat)
    (st : EngineState) (l : Location) (ls : List Location)
    (hs : List Hover) (t : String)
    (hnode1 : req.nodeType ≠ "property_identifier")
    (hnode2 : req.nodeType ≠ "type_identifier")
    (hloc : DefinitionLocationCache.get st req = some (l :: ls))
    (hdef : DefinitionCache.get st l = none)
    (hhover : env.hover l.uri l.range.start = Except.ok hs)
    (hh : isUnhelpfulSymbolSnippet req.symbolName
      (String.intercalate newline (extractHoverContent hs)) = true)
    (htext : env.textAt l = Except.ok t)
    (ht : isUnhelpfulSymbolSnippet req.symbolName t = true) :
    getSnippetForLocationGetter env g req parents depth st =
      (Except.ok (some
        { key := (l.uri, toDefinitionCacheKey l), uri := l.uri
          startLine := l.range.start.line, endLine := l.range.stop.line
          symbol := req.symbolName, location := l
          content := none, relatedDefinitionKeys := none }),
       { st with trace := st.trace ++
          [⟨req, ProviderCall.hoverAt l.uri l.range.start, depth⟩,
           ⟨req, ProviderCall.textAt l, depth⟩] }) := by
  unfold getSnippetForLocationGetter
  simp only [EngineM.bind_apply, EngineM.readState_apply, hloc, EngineM.pure_apply, hdef,
    limiter, callHover, callTextAt, EngineM.emitCall_apply, EngineM.liftExcept_apply,
    hhover, htext, hh, ht, if_pos]
  simp

/-- C5 witness for the amended theorem. -/
theorem unhelpful_extraction_keeps_bare_snippet_in_attempt_witness :
    (getSnippetForLocationGetter c5Env GetterId.typeDefinitions c5Request none 0
      { EngineState.empty with
        locationCache :=
          Map.insert Map.empty aUri
            (Map.insert Map.empty (toLocationCacheKey c5Request) [c5Location]) }) =
      (Except.ok (some
        { key := (c5Location.uri, toDefinitionCacheKey c5Location), uri := c5Location.uri
          startLine := c5Location.range.start.line, endLine := c5Location.range.stop.line
          symbol := c5Request.symbolName, location := c5Location
          content := none, relatedDefinitionKeys := none }),
       { EngineState.empty with
         locationCache :=
           Map.insert Map.empty aUri
             (Map.insert Map.empty (toLocationCacheKey c5Request) [c5Location])
         trace :=
          [⟨c5Request, ProviderCall.hoverAt c5Location.uri c5Location.range.start, 0⟩,
           ⟨c5Request, ProviderCall.textAt c5Location, 0⟩] }) :=
  unhelpful_extraction_keeps_bare_snippet_in_attempt c5Env GetterId.typeDefinitions
    c5Request none 0 _ c5Location [] [] c5FallbackText
    (by decide) (by decide) (by decide) (by decide) (by decide) (by decide)
    (by decide) (by decide)

/-! ## Claim C6 -/

def c6Request : SymbolSnippetsRequest :=
  { symbolName := "foo", uri := aUri, position := ⟨0, 0⟩
    nodeType := "identifier", languageId := "typescript" }

def c6Location : Location :=
  { uri := bUri, range := { start := ⟨2, 0⟩, stop := ⟨2, 13⟩ } }

def c6Env : Env :=
  { definitions := fun _ _ => Except.ok []
    typeDefinitions := fun _ _ => Except.ok [c6Location]
    implementations := fun _ _ => Except.ok []
    hover := fun _ _ => Except.ok []
    textAt := fun _ => Except.ok "const foo = 1"
    identifiers := fun _ _ _ => []
    commonKeywords := fun _ => false }

/-- A warmed state: the location cache resolves `c6Request` to `c6Location`
and the definition cache holds content there, so the first getter attempt is
a pure cache hit. -/
def c6State : EngineState :=
  { definitionCache :=
      Map.insert Map.empty bUri
        (Map.insert Map.empty (toDefinitionCacheKey c6Location)
          { content := "const foo = 1", relatedDefinitionKeys := none })
    locationCache :=
      Map.insert Map.empty aUri
        (Map.insert Map.empty (toLocationCacheKey c6Request) [c6Location])
    documentToLocationCacheKeyMap := Map.empty
    trace := [] }

def c6Snippet : SymbolSnippetInflightRequest :=
  { key := (bUri, ⟨2, 0⟩), uri := bUri, startLine := 2, endLine := 2
    symbol := "foo", location := c6Location
    content := some "const foo = 1", relatedDefinitionKeys := none }

/-- C6: the getter order is definition → type-definition → implementation for
`property_identifier`/`type_identifier` nodes and type-definition →
implementation → definition for every other node type (first three
conjuncts); the getter loop stops at the first attempt whose snippet has
content, and its result and final state are then independent of the getters
that follow (fourth conjunct); an attempt without content — `undefined` or a
bare snippet — makes the loop continue with the next getter, overwriting the
accumulator with that attempt's result (fifth and sixth conjuncts). -/
theorem getter_order_and_first_content_short_circuit :
    (gettersFor "property_identifier"
      = [GetterId.definitions, GetterId.typeDefinitions, GetterId.implementations]) ∧
    (gettersFor "type_identifier"
      = [GetterId.definitions, GetterId.typeDefinitions, GetterId.implementations]) ∧
    (∀ nodeType : String, nodeType ≠ "property_identifier" →
      nodeType ≠ "type_identifier" →
      gettersFor nodeType
        = [GetterId.typeDefinitions, GetterId.implementations, GetterId.definitions]) ∧
    (∀ env g gs req parents depth last s st st',
      getSnippetForLocationGetter env g req parents depth st = (Except.ok (some s), st') →
      s.content.isSome = true →
      tryGetters env req parents depth (g :: gs) last st = (Except.ok (some s), st')) ∧
    (∀ env g gs req parents depth last st st',
      getSnippetForLocationGetter env g req parents depth st = (Except.ok none, st') →
      tryGetters env req parents depth (g :: gs) last st
        = tryGetters env req parents depth gs none st') ∧
    (∀ env g gs req parents depth last s st st',
      getSnippetForLocationGetter env g req parents depth st = (Except.ok (some s), st') →
      s.content = none →
      tryGetters env req parents depth (g :: gs) last st
        = tryGetters env req parents depth gs (some s) st') := by
  refine ⟨by decide, by decide, ?_, ?_, ?_, ?_⟩
  · intro nodeType h1 h2
    simp [gettersFor, h1, h2]
  · intro env g gs req parents depth last s st st' h hs
    show tryGetters env req parents depth (g :: gs) last st = (Except.ok (some s), st')
    simp only [tryGetters, EngineM.bind_apply, h, hs, if_pos, EngineM.pure_apply]
  · intro env g gs req parents depth last st st' h
    show tryGetters env req parents depth (g :: gs) last st
      = tryGetters env req parents depth gs none st'
    simp only [tryGetters, EngineM.bind_apply, h]
  · intro env g gs req parents depth last s st st' h hc
    show tryGetters env req parents depth (g :: gs) last st
      = tryGetters env req parents depth gs (some s) st'
    simp only [tryGetters, EngineM.bind_apply, h, hc, Option.isSome_none, Bool.false_eq_true,
      if_false]

/-- C6 witness: at the warmed fixture the first getter's attempt yields the
cached content, so the loop returns it untouched by the remaining getters. -/
theorem getter_order_and_first_content_short_circuit_witness :
    tryGetters c6Env c6Request none 0
      (gettersFor c6Request.nodeType) none c6State = (Except.ok (some c6Snippet), c6State) := by
  have h := getter_order_and_first_content_short_circuit.2.2.2.1 c6Env
    GetterId.typeDefinitions [GetterId.implementations, GetterId.definitions]
    c6Request none 0 none c6Snippet c6State c6State (by decide) (by decide)
  have horder : gettersFor c6Request.nodeType
      = GetterId.typeDefinitions :: [GetterId.implementations, GetterId.definitions] := by
    decide
  rw [horder]
  exact h

/-! ## Claim C7 -/

def isLocationProviderCall : ProviderCall → Bool
  | ProviderCall.location _ _ _ => true
  | _ => false

def c7Request : SymbolSnippetsRequest :=
  { symbolName := "Foo", uri := aUri, position := ⟨0, 0⟩
    nodeType := "identifier", languageId := "typescript" }

def c7Location : Location :=
  { uri := bUri, range := { start := ⟨4, 0⟩, stop := ⟨6, 1⟩ } }

def c7Content : String := "interface Foo \x7b n: number \x7d"

/-- The definition cache already holds content for the location, but the
location cache is cold for the request. -/
def c7State : EngineState :=
  { definitionCache :=
      Map.insert Map.empty bUri
        (Map.insert Map.empty (toDefinitionCacheKey c7Location)
          { content := c7Content, relatedDefinitionKeys := none })
    locationCache := Map.empty
    documentToLocationCacheKeyMap := Map.empty
    trace := [] }

def c7Env : Env :=
  { definitions := fun _ _ => Except.ok []
    typeDefinitions := fun _ _ => Except.ok [c7Location]
    implementations := fun _ _ => Except.ok []
    hover := fun _ _ => Except.ok []
    textAt := fun _ => Except.ok c7Content
    identifiers := fun _ _ _ => []
    commonKeywords := fun _ => false }

def c7Run : Except String (Option SymbolSnippetInflightRequest) × EngineState :=
  getSnippetForLocationGetter c7Env GetterId.typeDefinitions c7Request none 0 c7State

/-- C7 counterexample: the provider is called (second conjunct) and returns a
NON-empty location list (first conjunct), the attempt succeeds with the
cached definition content (third conjunct) — and yet no Definition-Location
Cache entry is stored for the request (fourth conjunct), because the
definition-cache hit returns before the `definitionLocationCache.set` line.
This refutes the claim's "a non-empty result is stored in the cache". -/
theorem nonempty_result_not_always_cached_counterexample :
    (getterFun c7Env GetterId.typeDefinitions c7Request.uri c7Request.position
      = Except.ok [c7Location]) ∧
    (c7Run.2.trace = [⟨c7Request,
      ProviderCall.location GetterId.typeDefinitions c7Request.uri c7Request.position, 0⟩]) ∧
    (c7Run.1 = Except.ok (some
      { key := (bUri, ⟨4, 0⟩), uri := bUri, startLine := 4, endLine := 6
        symbol := "Foo", location := c7Location
        content := some c7Content, relatedDefinitionKeys := none })) ∧
    (DefinitionLocationCache.get c7Run.2 c7Request = none) := by
  decide

/-- C7 amended: each getter attempt consults the Definition-Location Cache
first and, on a hit, issues no location-provider call (first conjunct); an
empty provider result yields no snippet and leaves no cache entry for the
request — the entry is even deleted — so a later call retries the provider
(second conjunct); a non-empty provider result is stored in the cache when
the attempt proceeds past the definition-cache check and extraction yields
content, here along the `property_identifier` path (third conjunct).  On a
definition-cache hit or an unhelpful bare attempt the store is skipped
(established by `nonempty_result_not_always_cached_counterexample`). -/
theorem location_cache_discipline :
    (∀ env g req parents depth st locs,
      DefinitionLocationCache.get st req = some locs →
      ∀ e ∈ (getSnippetForLocationGetter env g req parents depth st).2.trace,
        e ∈ st.trace ∨ isLocationProviderCall e.call = false) ∧
    (∀ env g req parents depth st,
      DefinitionLocationCache.get st req = none →
      getterFun env g req.uri req.position = Except.ok [] →
      getSnippetForLocationGetter env g req parents depth st
        = (Except.ok none,
           DefinitionLocationCache.delete
             { st with trace := st.trace ++
                [⟨req, ProviderCall.location g req.uri req.position, depth⟩] } req)) ∧
    (∀ env g req parents depth st l ls t,
      DefinitionLocationCache.get st req = none →
      getterFun env g req.uri req.position = Except.ok (l :: ls) →
      DefinitionCache.get st l = none →
      req.nodeType = "property_identifier" →
      env.textAt l = Except.ok t →
      DefinitionLocationCache.get
        (getSnippetForLocationGetter env g req parents depth st).2 req
        = some (l :: ls)) := by
  refine ⟨?_, ?_, ?_⟩
  · intro env g req parents depth st locs hloc e he
    unfold getSnippetForLocationGetter at he
    simp only [hloc, EngineM.bind_apply, EngineM.readState_apply, EngineM.pure_apply,
      EngineM.modifyState_apply, EngineM.emitCall_apply, EngineM.liftExcept_apply,
      limiter, callHover, callTextAt, DefinitionLocationCache.deleteLoc_trace,
      DefinitionLocationCache.setLoc_trace, DefinitionCache.set_trace,
      DefinitionCache.delete_trace, updateParentDefinitionKeys_trace,
      List.append_assoc, List.cons_append, List.nil_append, List.singleton_append,
      DefinitionCache.get_trace_update, DefinitionCache.getPath_trace_update,
      DefinitionLocationCache.getLoc_trace_update] at he
    cases locs with
    | nil =>
        simp only [EngineM.bind_apply, EngineM.readState_apply, EngineM.pure_apply,
      EngineM.modifyState_apply, EngineM.emitCall_apply, EngineM.liftExcept_apply,
      limiter, callHover, callTextAt, DefinitionLocationCache.deleteLoc_trace,
      DefinitionLocationCache.setLoc_trace, DefinitionCache.set_trace,
      DefinitionCache.delete_trace, updateParentDefinitionKeys_trace,
      List.append_assoc, List.cons_append, List.nil_append, List.singleton_append,
      DefinitionCache.get_trace_update, DefinitionCache.getPath_trace_update,
      DefinitionLocationCache.getLoc_trace_update] at he
        exact Or.inl he
    | cons l tail =>
        rcases hcd : DefinitionCache.get st l with _ | cd <;>
          simp only [hcd, EngineM.bind_apply, EngineM.readState_apply, EngineM.pure_apply,
      EngineM.modifyState_apply, EngineM.emitCall_apply, EngineM.liftExcept_apply,
      limiter, callHover, callTextAt, DefinitionLocationCache.deleteLoc_trace,
      DefinitionLocationCache.setLoc_trace, DefinitionCache.set_trace,
      DefinitionCache.delete_trace, updateParentDefinitionKeys_trace,
      List.append_assoc, List.cons_append, List.nil_append, List.singleton_append,
      DefinitionCache.get_trace_update, DefinitionCache.getPath_trace_update,
      DefinitionLocationCache.getLoc_trace_update] at he
        · by_cases hnt1 : req.nodeType = "property_identifier"
          · simp only [hnt1, EngineM.bind_apply, EngineM.readState_apply, EngineM.pure_apply,
      EngineM.modifyState_apply, EngineM.emitCall_apply, EngineM.liftExcept_apply,
      limiter, callHover, callTextAt, DefinitionLocationCache.deleteLoc_trace,
      DefinitionLocationCache.setLoc_trace, DefinitionCache.set_trace,
      DefinitionCache.delete_trace, updateParentDefinitionKeys_trace,
      List.append_assoc, List.cons_append, List.nil_append, List.singleton_append,
      DefinitionCache.get_trace_update, DefinitionCache.getPath_trace_update,
      DefinitionLocationCache.getLoc_trace_update] at he
            rcases htx : env.textAt l with msg | t <;>
              simp only [htx, EngineM.bind_apply, EngineM.readState_apply, EngineM.pure_apply,
      EngineM.modifyState_apply, EngineM.emitCall_apply, EngineM.liftExcept_apply,
      limiter, callHover, callTextAt, DefinitionLocationCache.deleteLoc_trace,
      DefinitionLocationCache.setLoc_trace, DefinitionCache.set_trace,
      DefinitionCache.delete_trace, updateParentDefinitionKeys_trace,
      List.append_assoc, List.cons_append, List.nil_append, List.singleton_append,
      DefinitionCache.get_trace_update, DefinitionCache.getPath_trace_update,
      DefinitionLocationCache.getLoc_trace_update] at he <;>
              rcases List.mem_append.mp he with h | h <;> first | exact Or.inl h | (refine Or.inr ?_; fin_cases h <;> rfl)
          · by_cases hnt2 : req.nodeType = "type_identifier"
            · simp only [hnt2, EngineM.bind_apply, EngineM.readState_apply, EngineM.pure_apply,
      EngineM.modifyState_apply, EngineM.emitCall_apply, EngineM.liftExcept_apply,
      limiter, callHover, callTextAt, DefinitionLocationCache.deleteLoc_trace,
      DefinitionLocationCache.setLoc_trace, DefinitionCache.set_trace,
      DefinitionCache.delete_trace, updateParentDefinitionKeys_trace,
      List.append_assoc, List.cons_append, List.nil_append, List.singleton_append,
      DefinitionCache.get_trace_update, DefinitionCache.getPath_trace_update,
      DefinitionLocationCache.getLoc_trace_update] at he
              rcases htx : env.textAt l with msg | t <;>
                simp only [htx, EngineM.bind_apply, EngineM.readState_apply, EngineM.pure_apply,
      EngineM.modifyState_apply, EngineM.emitCall_apply, EngineM.liftExcept_apply,
      limiter, callHover, callTextAt, DefinitionLocationCache.deleteLoc_trace,
      DefinitionLocationCache.setLoc_trace, DefinitionCache.set_trace,
      DefinitionCache.delete_trace, updateParentDefinitionKeys_trace,
      List.append_assoc, List.cons_append, List.nil_append, List.singleton_append,
      DefinitionCache.get_trace_update, DefinitionCache.getPath_trace_update,
      DefinitionLocationCache.getLoc_trace_update] at he <;>
                rcases List.mem_append.mp he with h | h <;> first | exact Or.inl h | (refine Or.inr ?_; fin_cases h <;> rfl)
            · rcases hhv : env.hover l.uri l.range.start with msg | hs <;>
                simp only [hhv, EngineM.bind_apply, EngineM.readState_apply, EngineM.pure_apply,
      EngineM.modifyState_apply, EngineM.emitCall_apply, EngineM.liftExcept_apply,
      limiter, callHover, callTextAt, DefinitionLocationCache.deleteLoc_trace,
      DefinitionLocationCache.setLoc_trace, DefinitionCache.set_trace,
      DefinitionCache.delete_trace, updateParentDefinitionKeys_trace,
      List.append_assoc, List.cons_append, List.nil_append, List.singleton_append,
      DefinitionCache.get_trace_update, DefinitionCache.getPath_trace_update,
      DefinitionLocationCache.getLoc_trace_update] at he
              · rcases List.mem_append.mp he with h | h <;> first | exact Or.inl h | (refine Or.inr ?_; fin_cases h <;> rfl)
              · by_cases hu1 : isUnhelpfulSymbolSnippet req.symbolName
                  (String.intercalate newline (extractHoverContent hs)) = true
                · simp only [hu1, if_pos, EngineM.bind_apply, EngineM.readState_apply, EngineM.pure_apply,
      EngineM.modifyState_apply, EngineM.emitCall_apply, EngineM.liftExcept_apply,
      limiter, callHover, callTextAt, DefinitionLocationCache.deleteLoc_trace,
      DefinitionLocationCache.setLoc_trace, DefinitionCache.set_trace,
      DefinitionCache.delete_trace, updateParentDefinitionKeys_trace,
      List.append_assoc, List.cons_append, List.nil_append, List.singleton_append,
      DefinitionCache.get_trace_update, DefinitionCache.getPath_trace_update,
      DefinitionLocationCache.getLoc_trace_update] at he
                  rcases htx : env.textAt l with msg | t <;>
                    simp only [htx, EngineM.bind_apply, EngineM.readState_apply, EngineM.pure_apply,
      EngineM.modifyState_apply, EngineM.emitCall_apply, EngineM.liftExcept_apply,
      limiter, callHover, callTextAt, DefinitionLocationCache.deleteLoc_trace,
      DefinitionLocationCache.setLoc_trace, DefinitionCache.set_trace,
      DefinitionCache.delete_trace, updateParentDefinitionKeys_trace,
      List.append_assoc, List.cons_append, List.nil_append, List.singleton_append,
      DefinitionCache.get_trace_update, DefinitionCache.getPath_trace_update,
      DefinitionLocationCache.getLoc_trace_update] at he
                  · rcases List.mem_append.mp he with h | h <;> first | exact Or.inl h | (refine Or.inr ?_; fin_cases h <;> rfl)
                  · by_cases hu2 : isUnhelpfulSymbolSnippet req.symbolName t = true <;>
                      simp only [hu2, if_pos, if_neg, Bool.not_eq_true, EngineM.bind_apply, EngineM.readState_apply, EngineM.pure_apply,
      EngineM.modifyState_apply, EngineM.emitCall_apply, EngineM.liftExcept_apply,
      limiter, callHover, callTextAt, DefinitionLocationCache.deleteLoc_trace,
      DefinitionLocationCache.setLoc_trace, DefinitionCache.set_trace,
      DefinitionCache.delete_trace, updateParentDefinitionKeys_trace,
      List.append_assoc, List.cons_append, List.nil_append, List.singleton_append,
      DefinitionCache.get_trace_update, DefinitionCache.getPath_trace_update,
      DefinitionLocationCache.getLoc_trace_update] at he <;>
                      rcases List.mem_append.mp he with h | h <;> first | exact Or.inl h | (refine Or.inr ?_; fin_cases h <;> rfl)
                · simp only [hu1, if_neg, Bool.not_eq_true, EngineM.bind_apply, EngineM.readState_apply, EngineM.pure_apply,
      EngineM.modifyState_apply, EngineM.emitCall_apply, EngineM.liftExcept_apply,
      limiter, callHover, callTextAt, DefinitionLocationCache.deleteLoc_trace,
      DefinitionLocationCache.setLoc_trace, DefinitionCache.set_trace,
      DefinitionCache.delete_trace, updateParentDefinitionKeys_trace,
      List.append_assoc, List.cons_append, List.nil_append, List.singleton_append,
      DefinitionCache.get_trace_update, DefinitionCache.getPath_trace_update,
      DefinitionLocationCache.getLoc_trace_update] at he
                  rcases List.mem_append.mp he with h | h <;> first | exact Or.inl h | (refine Or.inr ?_; fin_cases h <;> rfl)
        · exact Or.inl he
  · intro env g req parents depth st hloc hprov
    unfold getSnippetForLocationGetter
    simp only [hloc, hprov, callLocationGetter, EngineM.bind_apply, EngineM.readState_apply, EngineM.pure_apply,
      EngineM.modifyState_apply, EngineM.emitCall_apply, EngineM.liftExcept_apply,
      limiter, callHover, callTextAt, DefinitionLocationCache.deleteLoc_trace,
      DefinitionLocationCache.setLoc_trace, DefinitionCache.set_trace,
      DefinitionCache.delete_trace, updateParentDefinitionKeys_trace,
      List.append_assoc, List.cons_append, List.nil_append, List.singleton_append,
      DefinitionCache.get_trace_update, DefinitionCache.getPath_trace_update,
      DefinitionLocationCache.getLoc_trace_update]
  · intro env g req parents depth st l ls t hloc hprov hcd hnt htx
    unfold getSnippetForLocationGetter
    simp only [hloc, hprov, hcd, hnt, htx, callLocationGetter, EngineM.bind_apply, EngineM.readState_apply, EngineM.pure_apply,
      EngineM.modifyState_apply, EngineM.emitCall_apply, EngineM.liftExcept_apply,
      limiter, callHover, callTextAt, DefinitionLocationCache.deleteLoc_trace,
      DefinitionLocationCache.setLoc_trace, DefinitionCache.set_trace,
      DefinitionCache.delete_trace, updateParentDefinitionKeys_trace,
      List.append_assoc, List.cons_append, List.nil_append, List.singleton_append,
      DefinitionCache.get_trace_update, DefinitionCache.getPath_trace_update,
      DefinitionLocationCache.getLoc_trace_update]
    rw [DefinitionLocationCache.getLoc_set]
    simp

def c7wText : String := "foo: Bar"

def c7wRequest : SymbolSnippetsRequest :=
  { symbolName := "foo", uri := aUri, position := ⟨1, 1⟩
    nodeType := "property_identifier", languageId := "typescript" }

def c7wEnv : Env :=
  { definitions := fun _ _ => Except.ok [c7Location]
    typeDefinitions := fun _ _ => Except.ok []
    implementations := fun _ _ => Except.ok []
    hover := fun _ _ => Except.ok []
    textAt := fun _ => Except.ok c7wText
    identifiers := fun _ _ _ => []
    commonKeywords := fun _ => false }

/-- C7 witness: conjunct three applied at a concrete property-identifier
fixture — a fresh non-empty provider result is stored in the location
cache. -/
theorem location_cache_discipline_witness :
    DefinitionLocationCache.get
      (getSnippetForLocationGetter c7wEnv GetterId.definitions c7wRequest none 0
        EngineState.empty).2 c7wRequest = some [c7Location] :=
  location_cache_discipline.2.2 c7wEnv GetterId.definitions c7wRequest none 0
    EngineState.empty c7Location [] c7wText (by decide) (by decide) (by decide)
    (by decide) (by decide)

/-! ## Claim C9 -/

/-- Written after the claim's words, for comparison with the source-derived
`mergeRelatedDefinitions`: the contents of every related definition key other
than the snippet's own key that is present in the Definition Cache. -/
def specRelatedContents (st : EngineState) (selfKey : DefinitionCacheEntryPath)
    (keys : SetList DefinitionCacheEntryPath) : List String :=
  (keys.filter (fun k => decide (k ≠ selfKey))).filterMap
    (fun k => (DefinitionCache.getPath st k).map (fun e => e.content))

theorem filterMap_skip (selfKey : DefinitionCacheEntryPath)
    (f : DefinitionCacheEntryPath → Option String) :
    ∀ keys : List DefinitionCacheEntryPath,
      keys.filterMap (fun k => if k = selfKey then none else f k)
        = (keys.filter (fun k => decide (k ≠ selfKey))).filterMap f := by
  intro keys
  induction keys with
  | nil => rfl
  | cons k ks ih =>
      by_cases hk : k = selfKey
      · simp only [List.filterMap_cons, List.filter_cons, if_pos hk, hk]
        simp [ih]
      · simp only [List.filterMap_cons, List.filter_cons, if_neg hk]
        have hd : decide (k ≠ selfKey) = true := by simp [hk]
        rw [hd]
        cases hf : f k <;> simp [List.filterMap_cons, hf, ih]

/-- C9: the result assembler leaves snippets without `relatedDefinitionKeys`
unchanged (first conjunct); a snippet with keys gets as content the
newline-join of the cached contents of its related keys — skipping its own
key and keys absent from the Definition Cache, exactly the claim's
`specRelatedContents` — followed by its own original content (second
conjunct); occurrences of the snippet's own key among the related keys
contribute nothing, so its own content is never concatenated twice (third
conjunct). -/
theorem assembler_merges_related_definitions :
    (∀ st snippet, snippet.relatedDefinitionKeys = none →
      mergeRelatedDefinitions st snippet = snippet) ∧
    (∀ st snippet keys, snippet.relatedDefinitionKeys = some keys →
      mergeRelatedDefinitions st snippet =
        { snippet with
           content := some (String.intercalate newline
             (specRelatedContents st snippet.key keys ++ [snippet.content.getD ""])) }) ∧
    (∀ st snippet keys, snippet.relatedDefinitionKeys = some keys →
      (mergeRelatedDefinitions st snippet).content
        = (mergeRelatedDefinitions st
            { snippet with
              relatedDefinitionKeys :=
                some (keys.filter (fun k => decide (k ≠ snippet.key))) }).content) := by
  have hmain : ∀ st (snippet : SymbolSnippetInflightRequest) keys,
      snippet.relatedDefinitionKeys = some keys →
      mergeRelatedDefinitions st snippet =
        { snippet with
           content := some (String.intercalate newline
             (specRelatedContents st snippet.key keys ++ [snippet.content.getD ""])) } := by
    intro st snippet keys h
    unfold mergeRelatedDefinitions
    simp only [h]
    rw [filterMap_skip]
    rfl
  refine ⟨?_, hmain, ?_⟩
  · intro st snippet h
    unfold mergeRelatedDefinitions
    simp only [h]
  · intro st snippet keys h
    rw [hmain st snippet keys h,
      hmain st _ (keys.filter (fun k => decide (k ≠ snippet.key))) rfl]
    simp only [specRelatedContents, List.filter_filter]
    simp

def c9Snippet : SymbolSnippetInflightRequest :=
  { key := (bUri, ⟨1, 0⟩), uri := bUri, startLine := 1, endLine := 1
    symbol := "foo", location := { uri := bUri, range := { start := ⟨1, 0⟩, stop := ⟨1, 5⟩ } }
    content := some "const foo = 1", relatedDefinitionKeys := none }

/-- C9 witness: a snippet without related keys passes through unchanged. -/
theorem assembler_merges_related_definitions_witness :
    mergeRelatedDefinitions EngineState.empty c9Snippet = c9Snippet :=
  assembler_merges_related_definitions.1 EngineState.empty c9Snippet (by decide)

/-! ## Claim C10 -/

def c10Text : String := "foo: Bar"

def c10Request : SymbolSnippetsRequest :=
  { symbolName := "foo", uri := aUri, position := ⟨0, 0⟩
    nodeType := "property_identifier", languageId := "typescript" }

def c10LocB : Location :=
  { uri := bUri, range := { start := ⟨1, 0⟩, stop := ⟨2, 0⟩ } }

def c10LocC : Location :=
  { uri := cUri, range := { start := ⟨3, 0⟩, stop := ⟨4, 0⟩ } }

def c10EnvA : Env :=
  { definitions := fun _ _ => Except.ok [c10LocB, c10LocC]
    typeDefinitions := fun _ _ => Except.ok []
    implementations := fun _ _ => Except.ok []
    hover := fun _ _ => Except.ok []
    textAt := fun _ => Except.ok c10Text
    identifiers := fun _ _ _ => []
    commonKeywords := fun _ => false }

def c10EnvB : Env :=
  { c10EnvA with definitions := fun _ _ => Except.ok [c10LocB] }

def c10RunA : Except String (Option SymbolSnippetInflightRequest) × EngineState :=
  getSnippetForLocationGetter c10EnvA GetterId.definitions c10Request none 0
    EngineState.empty

def c10RunB : Except String (Option SymbolSnippetInflightRequest) × EngineState :=
  getSnippetForLocationGetter c10EnvB GetterId.definitions c10Request none 0
    EngineState.empty

/-- C10 counterexample: two provider results with the same head location but
different tails give the same attempt result, the same definition cache and
the same trace (first three conjuncts) — but the remaining location (whose
target is document `c`) does NOT only change the Definition-Location Cache
entry: it also creates a document-to-cache-key reverse-index record under
`c`, absent in the run without it (last two conjuncts).  That reverse-index
record is behaviorally visible: `invalidateDocumentCache(c)` would evict the
whole entry in one run and not the other. -/
theorem tail_locations_affect_reverse_index_counterexample :
    (c10RunA.1 = c10RunB.1) ∧
    (c10RunA.2.definitionCache = c10RunB.2.definitionCache) ∧
    (c10RunA.2.trace = c10RunB.2.trace) ∧
    (Map.find? c10RunA.2.documentToLocationCacheKeyMap cUri
      = some [(aUri, toLocationCacheKey c10Request)]) ∧
    (Map.find? c10RunB.2.documentToLocationCacheKeyMap cUri = none) := by
  decide

/-- C10 amended: when the location cache yields a non-empty list `l :: tail`,
the attempt's result snippet (key, line span, symbol, location, extracted
content) is built from the head `l` alone, the definition cache and the
trace are unchanged by `tail`, and `tail` is observable only in the
Definition-Location Cache entry stored for the request (and, per the
counterexample, in the reverse-index records created when that entry is
stored).  Stated along the `property_identifier` extraction path. -/
theorem only_head_location_drives_resolution
    (env : Env) (g : GetterId) (req : SymbolSnippetsRequest)
    (parents : Option (SetList DefinitionCacheEntryPath)) (depth : Nat)
    (st : EngineState) (l : Location) (tail : List Location) (t : String)
    (hloc : DefinitionLocationCache.get st req = some (l :: tail))
    (hcd : DefinitionCache.get st l = none)
    (hnt : req.nodeType = "property_identifier")
    (htx : env.textAt l = Except.ok t) :
    ((getSnippetForLocationGetter env g req parents depth st).1
      = Except.ok (some
        { key := (l.uri, toDefinitionCacheKey l), uri := l.uri
          startLine := l.range.start.line, endLine := l.range.stop.line
          symbol := req.symbolName, location := l
          content := some t, relatedDefinitionKeys := none })) ∧
    ((getSnippetForLocationGetter env g req parents depth st).2.definitionCache
      = st.definitionCache) ∧
    ((getSnippetForLocationGetter env g req parents depth st).2.trace
      = st.trace ++ [⟨req, ProviderCall.textAt l, depth⟩]) ∧
    (DefinitionLocationCache.get
      (getSnippetForLocationGetter env g req parents depth st).2 req
      = some (l :: tail)) := by
  have heq : getSnippetForLocationGetter env g req parents depth st
      = (Except.ok (some
          { key := (l.uri, toDefinitionCacheKey l), uri := l.uri
            startLine := l.range.start.line, endLine := l.range.stop.line
            symbol := req.symbolName, location := l
            content := some t, relatedDefinitionKeys := none }),
         DefinitionLocationCache.set
           { st with trace := st.trace ++ [⟨req, ProviderCall.textAt l, depth⟩] }
           req (l :: tail)) := by
    unfold getSnippetForLocationGetter
    simp only [hloc, hcd, hnt, htx, EngineM.bind_apply, EngineM.readState_apply, EngineM.pure_apply,
      EngineM.modifyState_apply, EngineM.emitCall_apply, EngineM.liftExcept_apply,
      limiter, callHover, callTextAt, DefinitionLocationCache.deleteLoc_trace,
      DefinitionLocationCache.setLoc_trace, DefinitionCache.set_trace,
      DefinitionCache.delete_trace, updateParentDefinitionKeys_trace,
      List.append_assoc, List.cons_append, List.nil_append, List.singleton_append,
      DefinitionCache.get_trace_update, DefinitionCache.getPath_trace_update,
      DefinitionLocationCache.getLoc_trace_update]
  rw [heq]
  refine ⟨rfl, ?_, ?_, ?_⟩
  · simp
  · simp
  · rw [DefinitionLocationCache.getLoc_set]
    simp

def c10wState : EngineState :=
  { EngineState.empty with
     locationCache :=
       Map.insert Map.empty aUri
         (Map.insert Map.empty (toLocationCacheKey c10Request) [c10LocB, c10LocC]) }

/-- C10 witness for the amended theorem. -/
theorem only_head_location_drives_resolution_witness :
    DefinitionLocationCache.get
      (getSnippetForLocationGetter c10EnvB GetterId.definitions c10Request none 0
        c10wState).2 c10Request = some [c10LocB, c10LocC] :=
  (only_head_location_drives_resolution c10EnvB GetterId.definitions c10Request none 0
    c10wState c10LocB [c10LocC] c10Text (by decide) (by decide) (by decide)
    (by decide)).2.2.2

/-! ## Claim C2 -/

/-- Every event in the trace after running `m` was either already there or
satisfies `P`. -/
def TraceP {α : Type} (m : EngineM α) (P : CallEvent → Prop) : Prop :=
  ∀ st : EngineState, ∀ e ∈ (m st).2.trace, e ∈ st.trace ∨ P e

theorem traceP_pure {α : Type} (a : α) (P : CallEvent → Prop) :
    TraceP (Pure.pure a : EngineM α) P := by
  intro st e he
  exact Or.inl he

theorem traceP_bind {α β : Type} {m : EngineM α} {k : α → EngineM β}
    {P : CallEvent → Prop} (hm : TraceP m P) (hk : ∀ a, TraceP (k a) P) :
    TraceP (m >>= k) P := by
  intro st e he
  rw [EngineM.bind_apply] at he
  rcases hms : m st with ⟨r, st'⟩
  rw [hms] at he
  have hm' : ∀ e' ∈ st'.trace, e' ∈ st.trace ∨ P e' := by
    intro e' he'
    exact hm st e' (by rw [hms]; exact he')
  cases r with
  | ok a =>
      rcases hk a st' e he with h | h
      · exact hm' e h
      · exact Or.inr h
  | error msg => exact hm' e he

theorem traceP_mono {α : Type} {m : EngineM α} {P P' : CallEvent → Prop}
    (hm : TraceP m P) (h : ∀ e, P e → P' e) : TraceP m P' := by
  intro st e he
  rcases hm st e he with h1 | h1
  · exact Or.inl h1
  · exact Or.inr (h e h1)

theorem traceP_emitCall (ev : CallEvent) (P : CallEvent → Prop) (h : P ev) :
    TraceP (EngineM.emitCall ev) P := by
  intro st e he
  rcases List.mem_append.mp he with h1 | h1
  · exact Or.inl h1
  · rcases List.mem_singleton.mp h1 with rfl
    exact Or.inr h

theorem traceP_liftExcept {α : Type} (x : Except String α) (P : CallEvent → Prop) :
    TraceP (EngineM.liftExcept x) P := by
  intro st e he
  exact Or.inl he

theorem traceP_readState {α : Type} (f : EngineState → α) (P : CallEvent → Prop) :
    TraceP (EngineM.readState f) P := by
  intro st e he
  exact Or.inl he

theorem traceP_modifyState (f : EngineState → EngineState)
    (hf : ∀ st, (f st).trace = st.trace) (P : CallEvent → Prop) :
    TraceP (EngineM.modifyState f) P := by
  intro st e he
  rw [EngineM.modifyState_apply] at he
  exact Or.inl (hf st ▸ he)

theorem traceP_callLocationGetter (env : Env) (g : GetterId)
    (req : SymbolSnippetsRequest) (depth : Nat) :
    TraceP (callLocationGetter env g req depth) (fun e => e.depth = depth) := by
  unfold callLocationGetter
  exact traceP_bind (traceP_emitCall _ _ rfl) (fun _ => traceP_liftExcept _ _)

theorem traceP_callHover (env : Env) (req : SymbolSnippetsRequest) (l : Location)
    (depth : Nat) :
    TraceP (callHover env req l depth) (fun e => e.depth = depth) := by
  unfold callHover
  exact traceP_bind (traceP_emitCall _ _ rfl) (fun _ => traceP_liftExcept _ _)

theorem traceP_callTextAt (env : Env) (req : SymbolSnippetsRequest) (l : Location)
    (depth : Nat) :
    TraceP (callTextAt env req l depth) (fun e => e.depth = depth) := by
  unfold callTextAt
  exact traceP_bind (traceP_emitCall _ _ rfl) (fun _ => traceP_liftExcept _ _)

theorem traceP_getSnippetForLocationGetter (env : Env) (g : GetterId)
    (req : SymbolSnippetsRequest)
    (parents : Option (SetList DefinitionCacheEntryPath)) (depth : Nat) :
    TraceP (getSnippetForLocationGetter env g req parents depth)
      (fun e => e.depth = depth) := by
  unfold getSnippetForLocationGetter limiter
  dsimp only
  refine traceP_bind (traceP_readState _ _) ?_
  intro cached
  cases cached with
  | some locations =>
      refine traceP_bind (traceP_pure _ _) ?_
      intro y
      cases y with
      | nil =>
          exact traceP_bind (traceP_modifyState _ (fun st => by simp) _)
            (fun _ => traceP_pure _ _)
      | cons l tail =>
          dsimp only
          refine traceP_bind (traceP_readState _ _) ?_
          intro cachedDefinition
          cases cachedDefinition with
          | some cd =>
              exact traceP_bind (traceP_modifyState _ (fun st => by simp) _)
                (fun _ => traceP_pure _ _)
          | none =>
              dsimp only
              split
              · refine traceP_bind (traceP_callTextAt env req _ depth) ?_
                intro s
                refine traceP_bind (traceP_pure _ _) ?_
                intro y1
                cases y1 with
                | none => exact traceP_pure _ _
                | some ds =>
                    exact traceP_bind (traceP_modifyState _ (fun st => by simp) _)
                      (fun _ => traceP_pure _ _)
              · refine traceP_bind (traceP_callTextAt env req _ depth) ?_
                intro s
                refine traceP_bind (traceP_pure _ _) ?_
                intro y1
                cases y1 with
                | none => exact traceP_pure _ _
                | some ds =>
                    exact traceP_bind (traceP_modifyState _ (fun st => by simp) _)
                      (fun _ => traceP_pure _ _)
              · refine traceP_bind (traceP_callHover env req _ depth) ?_
                intro hoverContent
                dsimp only
                split
                · refine traceP_bind (traceP_callTextAt env req _ depth) ?_
                  intro fallback
                  split
                  · refine traceP_bind (traceP_pure _ _) ?_
                    intro y1
                    cases y1 with
                    | none => exact traceP_pure _ _
                    | some ds =>
                        exact traceP_bind (traceP_modifyState _ (fun st => by simp) _)
                          (fun _ => traceP_pure _ _)
                  · refine traceP_bind (traceP_pure _ _) ?_
                    intro y1
                    cases y1 with
                    | none => exact traceP_pure _ _
                    | some ds =>
                        exact traceP_bind (traceP_modifyState _ (fun st => by simp) _)
                          (fun _ => traceP_pure _ _)
                · refine traceP_bind (traceP_pure _ _) ?_
                  intro y1
                  cases y1 with
                  | none => exact traceP_pure _ _
                  | some ds =>
                      exact traceP_bind (traceP_modifyState _ (fun st => by simp) _)
                        (fun _ => traceP_pure _ _)
  | none =>
      refine traceP_bind (traceP_callLocationGetter env g req depth) ?_
      intro y
      cases y with
      | nil =>
          exact traceP_bind (traceP_modifyState _ (fun st => by simp) _)
            (fun _ => traceP_pure _ _)
      | cons l tail =>
          dsimp only
          refine traceP_bind (traceP_readState _ _) ?_
          intro cachedDefinition
          cases cachedDefinition with
          | some cd =>
              exact traceP_bind (traceP_modifyState _ (fun st => by simp) _)
                (fun _ => traceP_pure _ _)
          | none =>
              dsimp only
              split
              · refine traceP_bind (traceP_callTextAt env req _ depth) ?_
                intro s
                refine traceP_bind (traceP_pure _ _) ?_
                intro y1
                cases y1 with
                | none => exact traceP_pure _ _
                | some ds =>
                    exact traceP_bind (traceP_modifyState _ (fun st => by simp) _)
                      (fun _ => traceP_pure _ _)
              · refine traceP_bind (traceP_callTextAt env req _ depth) ?_
                intro s
                refine traceP_bind (traceP_pure _ _) ?_
                intro y1
                cases y1 with
                | none => exact traceP_pure _ _
                | some ds =>
                    exact traceP_bind (traceP_modifyState _ (fun st => by simp) _)
                      (fun _ => traceP_pure _ _)
              · refine traceP_bind (traceP_callHover env req _ depth) ?_
                intro hoverContent
                dsimp only
                split
                · refine traceP_bind (traceP_callTextAt env req _ depth) ?_
                  intro fallback
                  split
                  · refine traceP_bind (traceP_pure _ _) ?_
                    intro y1
                    cases y1 with
                    | none => exact traceP_pure _ _
                    | some ds =>
                        exact traceP_bind (traceP_modifyState _ (fun st => by simp) _)
                          (fun _ => traceP_pure _ _)
                  · refine traceP_bind (traceP_pure _ _) ?_
                    intro y1
                    cases y1 with
                    | none => exact traceP_pure _ _
                    | some ds =>
                        exact traceP_bind (traceP_modifyState _ (fun st => by simp) _)
                          (fun _ => traceP_pure _ _)
                · refine traceP_bind (traceP_pure _ _) ?_
                  intro y1
                  cases y1 with
                  | none => exact traceP_pure _ _
                  | some ds =>
                      exact traceP_bind (traceP_modifyState _ (fun st => by simp) _)
                        (fun _ => traceP_pure _ _)

theorem traceP_tryGetters (env : Env) (req : SymbolSnippetsRequest)
    (parents : Option (SetList DefinitionCacheEntryPath)) (depth : Nat) :
    ∀ (gs : List GetterId) (last : Option SymbolSnippetInflightRequest),
      TraceP (tryGetters env req parents depth gs last) (fun e => e.depth = depth) := by
  intro gs
  induction gs with
  | nil => intro last; exact traceP_pure _ _
  | cons g rest ih =>
      intro last
      show TraceP (tryGetters env req parents depth (g :: rest) last) _
      simp only [tryGetters]
      refine traceP_bind (traceP_getSnippetForLocationGetter env g req parents depth) ?_
      intro r
      cases r with
      | some s =>
          dsimp only
          split
          · exact traceP_pure _ _
          · exact ih (some s)
      | none => exact ih none

theorem traceP_finishSymbolSnippet (env : Env)
    (recurse : List SymbolSnippetsRequest →
      Option (SetList DefinitionCacheEntryPath) →
      EngineM (List SymbolSnippetInflightRequest))
    (req : SymbolSnippetsRequest)
    (parents : Option (SetList DefinitionCacheEntryPath))
    (lr : Option SymbolSnippetInflightRequest) (P : CallEvent → Prop)
    (hrec : ∀ rs ps, TraceP (recurse rs ps) P) :
    TraceP (finishSymbolSnippet env recurse req parents lr) P := by
  cases lr with
  | none => exact traceP_pure _ _
  | some snip =>
      unfold finishSymbolSnippet
      dsimp only
      split
      · exact traceP_bind (traceP_modifyState _ (fun st => by simp) _)
          (fun _ => traceP_pure _ _)
      · refine traceP_bind (traceP_modifyState _ (fun st => by simp) _) ?_
        intro u1
        refine traceP_bind (traceP_modifyState _ (fun st => by simp) _) ?_
        intro u2
        dsimp only
        split
        · exact traceP_pure _ _
        · refine traceP_bind (traceP_modifyState _ (fun st => by simp) _) ?_
          intro u3
          refine traceP_bind (hrec _ _) ?_
          intro u4
          refine traceP_bind (traceP_readState _ _) ?_
          intro entryAfter
          exact traceP_pure _ _

theorem traceP_getSymbolSnippetForNodeType (env : Env)
    (recurse : List SymbolSnippetsRequest →
      Option (SetList DefinitionCacheEntryPath) →
      EngineM (List SymbolSnippetInflightRequest))
    (req : SymbolSnippetsRequest)
    (parents : Option (SetList DefinitionCacheEntryPath)) (depth : Nat)
    (P : CallEvent → Prop) (hrec : ∀ rs ps, TraceP (recurse rs ps) P) :
    TraceP (getSymbolSnippetForNodeType env recurse req parents depth)
      (fun e => e.depth = depth ∨ P e) := by
  unfold getSymbolSnippetForNodeType
  refine traceP_bind
    (traceP_mono (traceP_tryGetters env req parents depth _ _) (fun e h => Or.inl h)) ?_
  intro lr
  exact traceP_mono (traceP_finishSymbolSnippet env recurse req parents lr P hrec)
    (fun e h => Or.inr h)

theorem traceP_resolveSymbolRequests (env : Env)
    (recurse : List SymbolSnippetsRequest →
      Option (SetList DefinitionCacheEntryPath) →
      EngineM (List SymbolSnippetInflightRequest))
    (P : CallEvent → Prop) (hrec : ∀ rs ps, TraceP (recurse rs ps) P) :
    ∀ (reqs : List SymbolSnippetsRequest)
      (parents : Option (SetList DefinitionCacheEntryPath)) (depth : Nat),
      TraceP (resolveSymbolRequests env recurse reqs parents depth)
        (fun e => e.depth = depth ∨ P e) := by
  intro reqs
  induction reqs with
  | nil => intro parents depth; exact traceP_pure _ _
  | cons r rest ih =>
      intro parents depth
      show TraceP (resolveSymbolRequests env recurse (r :: rest) parents depth) _
      simp only [resolveSymbolRequests]
      refine traceP_bind
        (traceP_getSymbolSnippetForNodeType env recurse r parents depth P hrec) ?_
      intro s?
      refine traceP_bind (ih parents depth) ?_
      intro others
      exact traceP_pure _ _

theorem traceP_getSymbolContextSnippetsRecursive (env : Env) :
    ∀ (fuel : Nat) (reqs : List SymbolSnippetsRequest)
      (parents : Option (SetList DefinitionCacheEntryPath)) (depth : Nat),
      TraceP (getSymbolContextSnippetsRecursive env fuel reqs parents depth)
        (fun e => e.depth < depth + fuel) := by
  intro fuel
  induction fuel with
  | zero => intro reqs parents depth; exact traceP_pure _ _
  | succ f ih =>
      intro reqs parents depth
      show TraceP (getSymbolContextSnippetsRecursive env (f + 1) reqs parents depth) _
      simp only [getSymbolContextSnippetsRecursive]
      refine traceP_mono
        (traceP_resolveSymbolRequests env
          (fun rs ps => getSymbolContextSnippetsRecursive env f rs ps (depth + 1))
          (fun e => e.depth < (depth + 1) + f)
          (fun rs ps => ih rs ps (depth + 1)) reqs parents depth) ?_
  -- pick a plain name to avoid clobbering: the new-event predicate implies the bound
      intro e he
      rcases he with h1 | h1
      · omega
      · omega

/-- C2: the engine is a total function of the recursion budget `R` (so every
run terminates; the fuel-indexed embedding is accepted by structural
recursion on `R`); at `R = 0` it returns the empty list and leaves the state
— caches and ghost trace — untouched, resolving no request (first conjunct);
and every provider call made during a run with budget `R` is tagged with an
expansion depth strictly below `R` hops from the initial request set, so the
induced expansion never descends more than `R` levels (second conjunct). -/
theorem getSymbolContextSnippetsRecursive_terminates_depth_bounded :
    ∀ (env : Env) (R : Nat) (reqs : List SymbolSnippetsRequest)
      (parents : Option (SetList DefinitionCacheEntryPath)) (st : EngineState),
      (getSymbolContextSnippetsRecursive env 0 reqs parents 0 st
        = (Except.ok [], st)) ∧
      (∀ e ∈ ((getSymbolContextSnippetsRecursive env R reqs parents 0 st).2).trace,
        e ∈ st.trace ∨ e.depth < R) := by
  intro env R reqs parents st
  refine ⟨rfl, ?_⟩
  intro e he
  have h := traceP_getSymbolContextSnippetsRecursive env R reqs parents 0 st e he
  simpa using h

def c2Request : SymbolSnippetsRequest :=
  { symbolName := "foo", uri := aUri, position := ⟨0, 0⟩
    nodeType := "identifier", languageId := "typescript" }

def c2Env : Env :=
  { definitions := fun _ _ => Except.ok []
    typeDefinitions := fun _ _ => Except.ok []
    implementations := fun _ _ => Except.ok []
    hover := fun _ _ => Except.ok []
    textAt := fun _ => Except.ok ""
    identifiers := fun _ _ _ => []
    commonKeywords := fun _ => false }

def c2Event : CallEvent :=
  ⟨c2Request, ProviderCall.location GetterId.typeDefinitions aUri ⟨0, 0⟩, 0⟩

/-- C2 witness: the first provider call of a budget-1 run is in the trace and
its tagged depth is below the budget. -/
theorem getSymbolContextSnippetsRecursive_terminates_depth_bounded_witness :
    c2Event ∈ ([] : List CallEvent) ∨ c2Event.depth < 1 :=
  (getSymbolContextSnippetsRecursive_terminates_depth_bounded c2Env 1 [c2Request]
    none EngineState.empty).2 c2Event (by decide)

/-! ## Claim C8 -/

theorem updateParentStep_getPath_ne (k : DefinitionCacheEntryPath) (st : EngineState)
    (q p : DefinitionCacheEntryPath) (h : p ≠ q) :
    DefinitionCache.getPath (updateParentStep k st q) p = DefinitionCache.getPath st p := by
  unfold updateParentStep
  cases hq : DefinitionCache.getPath st q with
  | none => simp only [hq]
  | some entry =>
      cases hr : entry.relatedDefinitionKeys with
      | none => simp only [hq, hr]
      | some keys =>
          simp only [hq, hr]
          rw [DefinitionCache.getPath_setPath]
          exact if_neg h

theorem updateParentStep_eq (k : DefinitionCacheEntryPath) (st : EngineState)
    (q : DefinitionCacheEntryPath) (e : DefinitionCacheEntry)
    (S : SetList DefinitionCacheEntryPath)
    (he : DefinitionCache.getPath st q = some e)
    (hs : e.relatedDefinitionKeys = some S) :
    updateParentStep k st q
      = DefinitionCache.setPath st q
          { e with relatedDefinitionKeys := some (SetList.add S k) } := by
  unfold updateParentStep
  simp only [he, hs]

theorem foldl_updateParentStep_preserves (k p : DefinitionCacheEntryPath) :
    ∀ (ps : List DefinitionCacheEntryPath) (st : EngineState)
      (e : DefinitionCacheEntry) (S : SetList DefinitionCacheEntryPath),
      DefinitionCache.getPath st p = some e →
      e.relatedDefinitionKeys = some S →
      ∃ e' S', DefinitionCache.getPath (ps.foldl (updateParentStep k) st) p = some e'
        ∧ e'.relatedDefinitionKeys = some S'
        ∧ e'.content = e.content
        ∧ ∀ x ∈ S, x ∈ S' := by
  intro ps
  induction ps with
  | nil =>
      intro st e S he hs
      exact ⟨e, S, he, hs, rfl, fun x hx => hx⟩
  | cons q ps ih =>
      intro st e S he hs
      rw [List.foldl_cons]
      by_cases hpq : p = q
      · subst hpq
        rw [updateParentStep_eq k st p e S he hs]
        have hget : DefinitionCache.getPath
            (DefinitionCache.setPath st p
              { e with relatedDefinitionKeys := some (SetList.add S k) }) p
            = some { e with relatedDefinitionKeys := some (SetList.add S k) } := by
          rw [DefinitionCache.getPath_setPath]
          simp
        obtain ⟨e', S', h1, h2, h3, h4⟩ := ih _ _ (SetList.add S k) hget rfl
        exact ⟨e', S', h1, h2, h3, fun x hx => h4 x (SetList.mem_add_of_mem _ _ _ hx)⟩
      · have hget : DefinitionCache.getPath (updateParentStep k st q) p = some e := by
          rw [updateParentStep_getPath_ne k st q p hpq]
          exact he
        exact ih _ _ _ hget hs

theorem foldl_updateParentStep_adds (k p : DefinitionCacheEntryPath) :
    ∀ (ps : List DefinitionCacheEntryPath) (st : EngineState)
      (e : DefinitionCacheEntry) (S : SetList DefinitionCacheEntryPath),
      p ∈ ps →
      DefinitionCache.getPath st p = some e →
      e.relatedDefinitionKeys = some S →
      ∃ e' S', DefinitionCache.getPath (ps.foldl (updateParentStep k) st) p = some e'
        ∧ e'.relatedDefinitionKeys = some S'
        ∧ k ∈ S'
        ∧ e'.content = e.content := by
  intro ps
  induction ps with
  | nil =>
      intro st e S hmem
      exact absurd hmem (List.not_mem_nil p)
  | cons q ps ih =>
      intro st e S hmem he hs
      rw [List.foldl_cons]
      by_cases hpq : p = q
      · subst hpq
        rw [updateParentStep_eq k st p e S he hs]
        have hget : DefinitionCache.getPath
            (DefinitionCache.setPath st p
              { e with relatedDefinitionKeys := some (SetList.add S k) }) p
            = some { e with relatedDefinitionKeys := some (SetList.add S k) } := by
          rw [DefinitionCache.getPath_setPath]
          simp
        obtain ⟨e', S', h1, h2, h3, h4⟩ :=
          foldl_updateParentStep_preserves k p ps _ _ (SetList.add S k) hget rfl
        exact ⟨e', S', h1, h2, h4 k (SetList.mem_add_self S k), h3⟩
      · have hmem' : p ∈ ps := by
          rcases List.mem_cons.mp hmem with h | h
          · exact absurd h hpq
          · exact h
        have hget : DefinitionCache.getPath (updateParentStep k st q) p = some e := by
          rw [updateParentStep_getPath_ne k st q p hpq]
          exact he
        exact ih _ _ _ hmem' hget hs

/-- C8: the parent-linkage update is performed on every resolution.  First
conjunct: on a definition-cache hit, the attempt's whole effect is exactly
`updateParentDefinitionKeys` (performed before the cached content is
returned), and afterwards every ancestor entry in the parent-key set that
has a `relatedDefinitionKeys` set contains the resolved definition's key.
Second conjunct: on the commit path of a fresh resolution (stated for a
snippet whose content yields no further identifiers, so the state after the
call is the state right after the update), the resolved snippet's key has
been added to the ancestor entry's set. -/
theorem parent_linkage_updated_on_resolution :
    (∀ (env : Env) (g : GetterId) (req : SymbolSnippetsRequest)
       (pl : SetList DefinitionCacheEntryPath) (depth : Nat) (st : EngineState)
       (l : Location) (ls : List Location) (cd ep : DefinitionCacheEntry)
       (S : SetList DefinitionCacheEntryPath) (p : DefinitionCacheEntryPath),
      DefinitionLocationCache.get st req = some (l :: ls) →
      DefinitionCache.get st l = some cd →
      p ∈ pl →
      DefinitionCache.getPath st p = some ep →
      ep.relatedDefinitionKeys = some S →
      (getSnippetForLocationGetter env g req (some pl) depth st
        = (Except.ok (some
            { key := (l.uri, toDefinitionCacheKey l), uri := l.uri
              startLine := l.range.start.line, endLine := l.range.stop.line
              symbol := req.symbolName, location := l
              content := some cd.content
              relatedDefinitionKeys := cd.relatedDefinitionKeys }),
           updateParentDefinitionKeys (some pl) (l.uri, toDefinitionCacheKey l) st)) ∧
      (∃ e' S', DefinitionCache.getPath
          (updateParentDefinitionKeys (some pl) (l.uri, toDefinitionCacheKey l) st) p
          = some e'
        ∧ e'.relatedDefinitionKeys = some S'
        ∧ (l.uri, toDefinitionCacheKey l) ∈ S')) ∧
    (∀ (env : Env)
       (recurse : List SymbolSnippetsRequest →
         Option (SetList DefinitionCacheEntryPath) →
         EngineM (List SymbolSnippetInflightRequest))
       (req : SymbolSnippetsRequest) (pl : SetList DefinitionCacheEntryPath)
       (p : DefinitionCacheEntryPath) (snip : SymbolSnippetInflightRequest)
       (c : String) (ep : DefinitionCacheEntry)
       (S : SetList DefinitionCacheEntryPath) (st : EngineState),
      snip.content = some c →
      snip.key = (snip.location.uri, toDefinitionCacheKey snip.location) →
      env.identifiers snip.location.uri req.languageId c = [] →
      p ∈ pl → p ≠ snip.key →
      DefinitionCache.getPath st p = some ep →
      ep.relatedDefinitionKeys = some S →
      ∃ st' e' S',
        finishSymbolSnippet env recurse req (some pl) (some snip) st
          = (Except.ok (some snip), st')
        ∧ DefinitionCache.getPath st' p = some e'
        ∧ e'.relatedDefinitionKeys = some S'
        ∧ snip.key ∈ S') := by
  constructor
  · intro env g req pl depth st l ls cd ep S p hloc hcd hmem hep hS
    constructor
    · unfold getSnippetForLocationGetter
      simp only [hloc, hcd, EngineM.bind_apply, EngineM.readState_apply, EngineM.pure_apply,
      EngineM.modifyState_apply, EngineM.emitCall_apply, EngineM.liftExcept_apply,
      limiter, callHover, callTextAt, DefinitionLocationCache.deleteLoc_trace,
      DefinitionLocationCache.setLoc_trace, DefinitionCache.set_trace,
      DefinitionCache.delete_trace, updateParentDefinitionKeys_trace,
      List.append_assoc, List.cons_append, List.nil_append, List.singleton_append,
      DefinitionCache.get_trace_update, DefinitionCache.getPath_trace_update,
      DefinitionLocationCache.getLoc_trace_update]
    · have hfold : updateParentDefinitionKeys (some pl) (l.uri, toDefinitionCacheKey l) st
          = pl.foldl (updateParentStep (l.uri, toDefinitionCacheKey l)) st := rfl
      rw [hfold]
      obtain ⟨e', S', h1, h2, h3, h4⟩ :=
        foldl_updateParentStep_adds (l.uri, toDefinitionCacheKey l) p pl st ep S hmem hep hS
      exact ⟨e', S', h1, h2, h3⟩
  · intro env recurse req pl p snip c ep S st hc hkey hseeds hmem hpk hep hS
    have heq : finishSymbolSnippet env recurse req (some pl) (some snip) st
        = (Except.ok (some snip),
           updateParentDefinitionKeys (some pl) snip.key
             (DefinitionCache.set st snip.location
               { content := c, relatedDefinitionKeys := none })) := by
      unfold finishSymbolSnippet
      simp only [hc, hseeds, List.filter_nil, List.map_nil, EngineM.bind_apply, EngineM.readState_apply, EngineM.pure_apply,
      EngineM.modifyState_apply, EngineM.emitCall_apply, EngineM.liftExcept_apply,
      limiter, callHover, callTextAt, DefinitionLocationCache.deleteLoc_trace,
      DefinitionLocationCache.setLoc_trace, DefinitionCache.set_trace,
      DefinitionCache.delete_trace, updateParentDefinitionKeys_trace,
      List.append_assoc, List.cons_append, List.nil_append, List.singleton_append,
      DefinitionCache.get_trace_update, DefinitionCache.getPath_trace_update,
      DefinitionLocationCache.getLoc_trace_update]
    have hget1 : DefinitionCache.getPath
        (DefinitionCache.set st snip.location
          { content := c, relatedDefinitionKeys := none }) p = some ep := by
      rw [DefinitionCache.getPath_set]
      rw [if_neg (by rw [← hkey]; exact hpk)]
      exact hep
    have hfold : updateParentDefinitionKeys (some pl) snip.key
        (DefinitionCache.set st snip.location
          { content := c, relatedDefinitionKeys := none })
        = pl.foldl (updateParentStep snip.key)
            (DefinitionCache.set st snip.location
              { content := c, relatedDefinitionKeys := none }) := rfl
    obtain ⟨e', S', h1, h2, h3, h4⟩ :=
      foldl_updateParentStep_adds snip.key p pl
        (DefinitionCache.set st snip.location
          { content := c, relatedDefinitionKeys := none }) ep S hmem hget1 hS
    refine ⟨_, e', S', heq, ?_, h2, h3⟩
    rw [hfold]
    exact h1

def c8Request : SymbolSnippetsRequest :=
  { symbolName := "foo", uri := aUri, position := ⟨0, 0⟩
    nodeType := "identifier", languageId := "typescript" }

def c8Location : Location :=
  { uri := bUri, range := { start := ⟨2, 0⟩, stop := ⟨2, 5⟩ } }

def c8ParentPath : DefinitionCacheEntryPath := (bUri, ⟨9, 0⟩)

def c8State : EngineState :=
  { definitionCache :=
      Map.insert Map.empty bUri
        (Map.insert
          (Map.insert Map.empty (⟨9, 0⟩ : Position)
            ({ content := "function parent() {}", relatedDefinitionKeys := some [] }
              : DefinitionCacheEntry))
          (⟨2, 0⟩ : Position)
          ({ content := "const foo = 1", relatedDefinitionKeys := none }
            : DefinitionCacheEntry))
    locationCache :=
      Map.insert Map.empty aUri
        (Map.insert Map.empty (toLocationCacheKey c8Request) [c8Location])
    documentToLocationCacheKeyMap := Map.empty
    trace := [] }

def c8Env : Env :=
  { definitions := fun _ _ => Except.ok []
    typeDefinitions := fun _ _ => Except.ok []
    implementations := fun _ _ => Except.ok []
    hover := fun _ _ => Except.ok []
    textAt := fun _ => Except.ok ""
    identifiers := fun _ _ _ => []
    commonKeywords := fun _ => false }

/-- C8 witness: a cache-hit resolution at the fixture adds the resolved key
into the parent entry's `relatedDefinitionKeys` set. -/
theorem parent_linkage_updated_on_resolution_witness :
    ∃ e' S', DefinitionCache.getPath
        (updateParentDefinitionKeys (some [c8ParentPath])
          (bUri, (⟨2, 0⟩ : Position)) c8State) c8ParentPath = some e'
      ∧ e'.relatedDefinitionKeys = some S'
      ∧ ((bUri, (⟨2, 0⟩ : Position)) : DefinitionCacheEntryPath) ∈ S' :=
  (parent_linkage_updated_on_resolution.1 c8Env GetterId.typeDefinitions c8Request
    [c8ParentPath] 0 c8State c8Location []
    ({ content := "const foo = 1", relatedDefinitionKeys := none } : DefinitionCacheEntry)
    ({ content := "function parent() {}", relatedDefinitionKeys := some [] }
      : DefinitionCacheEntry)
    [] c8ParentPath (by decide) (by decide) (by decide) (by decide) (by decide)).2

/-! ## C4: a second resolution of an already-cached request -/

/-- The snippet value produced by the cached-definition branch of
`getSnippetForLocationGetter` (lines 106-114 of the source) for a request
whose location cache holds head location `l` and whose definition cache
holds entry `cd` at `l`. -/
def hitSnippet (req : SymbolSnippetsRequest) (l : Location)
    (cd : DefinitionCacheEntry) : SymbolSnippetInflightRequest :=
  { key := (l.uri, toDefinitionCacheKey l), uri := l.uri
    startLine := l.range.start.line, endLine := l.range.stop.line
    symbol := req.symbolName, location := l
    content := some cd.content
    relatedDefinitionKeys := cd.relatedDefinitionKeys }

/-- A location-getter attempt on a doubly-warm request (location cache and
definition cache both hit) performs no provider call: its whole effect is
the parent-set update, and it returns the cached content. -/
theorem getSnippetForLocationGetter_cachedHit (env : Env) (g : GetterId)
    (req : SymbolSnippetsRequest)
    (parents : Option (SetList DefinitionCacheEntryPath)) (depth : Nat)
    (st : EngineState) (l : Location) (ls : List Location)
    (cd : DefinitionCacheEntry)
    (hloc : DefinitionLocationCache.get st req = some (l :: ls))
    (hcd : DefinitionCache.get st l = some cd) :
    getSnippetForLocationGetter env g req parents depth st
      = (Except.ok (some (hitSnippet req l cd)),
         updateParentDefinitionKeys parents (l.uri, toDefinitionCacheKey l) st) := by
  unfold getSnippetForLocationGetter hitSnippet
  simp only [hloc, hcd, EngineM.bind_apply, EngineM.readState_apply, EngineM.pure_apply,
      EngineM.modifyState_apply, EngineM.emitCall_apply, EngineM.liftExcept_apply,
      limiter, callHover, callTextAt, DefinitionLocationCache.deleteLoc_trace,
      DefinitionLocationCache.setLoc_trace, DefinitionCache.set_trace,
      DefinitionCache.delete_trace, updateParentDefinitionKeys_trace,
      List.append_assoc, List.cons_append, List.nil_append, List.singleton_append,
      DefinitionCache.get_trace_update, DefinitionCache.getPath_trace_update,
      DefinitionLocationCache.getLoc_trace_update]

/-- The getter loop short-circuits on the first (doubly-warm) attempt. -/
theorem tryGetters_cachedHit (env : Env) (g : GetterId) (gs : List GetterId)
    (req : SymbolSnippetsRequest)
    (parents : Option (SetList DefinitionCacheEntryPath)) (depth : Nat)
    (acc : Option SymbolSnippetInflightRequest)
    (st : EngineState) (l : Location) (ls : List Location)
    (cd : DefinitionCacheEntry)
    (hloc : DefinitionLocationCache.get st req = some (l :: ls))
    (hcd : DefinitionCache.get st l = some cd) :
    tryGetters env req parents depth (g :: gs) acc st
      = (Except.ok (some (hitSnippet req l cd)),
         updateParentDefinitionKeys parents (l.uri, toDefinitionCacheKey l) st) := by
  have h1 := getSnippetForLocationGetter_cachedHit env g req parents depth st l ls cd
    hloc hcd
  unfold tryGetters
  simp only [EngineM.bind_apply, h1]
  simp [hitSnippet]

/-- The commit phase on a content-bearing snippet whose content yields no
further identifier requests: store the content, update the parent sets,
return the snippet. -/
theorem finishSymbolSnippet_noSeeds (env : Env)
    (recurse : List SymbolSnippetsRequest →
      Option (SetList DefinitionCacheEntryPath) →
      EngineM (List SymbolSnippetInflightRequest))
    (req : SymbolSnippetsRequest)
    (parents : Option (SetList DefinitionCacheEntryPath))
    (snip : SymbolSnippetInflightRequest) (c : String) (st : EngineState)
    (hc : snip.content = some c)
    (hseeds : env.identifiers snip.location.uri req.languageId c = []) :
    finishSymbolSnippet env recurse req parents (some snip) st
      = (Except.ok (some snip),
         updateParentDefinitionKeys parents snip.key
           (DefinitionCache.set st snip.location
             { content := c, relatedDefinitionKeys := none })) := by
  unfold finishSymbolSnippet
  simp only [hc, hseeds, List.filter_nil, List.map_nil, EngineM.bind_apply, EngineM.readState_apply, EngineM.pure_apply,
      EngineM.modifyState_apply, EngineM.emitCall_apply, EngineM.liftExcept_apply,
      limiter, callHover, callTextAt, DefinitionLocationCache.deleteLoc_trace,
      DefinitionLocationCache.setLoc_trace, DefinitionCache.set_trace,
      DefinitionCache.delete_trace, updateParentDefinitionKeys_trace,
      List.append_assoc, List.cons_append, List.nil_append, List.singleton_append,
      DefinitionCache.get_trace_update, DefinitionCache.getPath_trace_update,
      DefinitionLocationCache.getLoc_trace_update]

/-- Full resolution of one doubly-warm request whose cached content seeds no
recursion: closed form, with no provider call of any kind. -/
theorem getSymbolSnippetForNodeType_cachedHit (env : Env)
    (recurse : List SymbolSnippetsRequest →
      Option (SetList DefinitionCacheEntryPath) →
      EngineM (List SymbolSnippetInflightRequest))
    (req : SymbolSnippetsRequest)
    (parents : Option (SetList DefinitionCacheEntryPath)) (depth : Nat)
    (st : EngineState) (l : Location) (ls : List Location)
    (cd : DefinitionCacheEntry)
    (hloc : DefinitionLocationCache.get st req = some (l :: ls))
    (hcd : DefinitionCache.get st l = some cd)
    (hseeds : env.identifiers l.uri req.languageId cd.content = []) :
    getSymbolSnippetForNodeType env recurse req parents depth st
      = (Except.ok (some (hitSnippet req l cd)),
         updateParentDefinitionKeys parents (l.uri, toDefinitionCacheKey l)
           (DefinitionCache.set
             (updateParentDefinitionKeys parents (l.uri, toDefinitionCacheKey l) st)
             l { content := cd.content, relatedDefinitionKeys := none })) := by
  obtain ⟨g, gs, hg⟩ : ∃ g gs, gettersFor req.nodeType = g :: gs := by
    unfold gettersFor
    split
    · exact ⟨_, _, rfl⟩
    · exact ⟨_, _, rfl⟩
  have h2 := tryGetters_cachedHit env g gs req parents depth none st l ls cd hloc hcd
  have h3 := finishSymbolSnippet_noSeeds env recurse req parents (hitSnippet req l cd)
    cd.content
    (updateParentDefinitionKeys parents (l.uri, toDefinitionCacheKey l) st)
    rfl hseeds
  unfold getSymbolSnippetForNodeType
  simp only [EngineM.bind_apply, hg, h2]
  exact h3

/-- C4: a request already resolved to a cached head location and cached
definition content is re-resolved without any provider call.  First conjunct:
any single getter attempt on such a request returns the cached content and
its only state effect is the parent-set update — in particular no
location-getter call and no hover call (the trace, the location cache and
the definition-cache contents other than parent sets are untouched).
Second conjunct: a whole engine run on the request (stated for cached
content that yields no further identifier requests, so no recursion into
other symbols occurs) returns exactly the cached content, leaves the trace
unchanged (zero provider calls), leaves the location cache and reverse index
unchanged, and keeps both cache entries warm. -/
theorem second_resolution_is_served_from_caches :
    (∀ (env : Env) (g : GetterId) (req : SymbolSnippetsRequest)
       (parents : Option (SetList DefinitionCacheEntryPath)) (depth : Nat)
       (st : EngineState) (l : Location) (ls : List Location)
       (cd : DefinitionCacheEntry),
      DefinitionLocationCache.get st req = some (l :: ls) →
      DefinitionCache.get st l = some cd →
      getSnippetForLocationGetter env g req parents depth st
        = (Except.ok (some (hitSnippet req l cd)),
           updateParentDefinitionKeys parents (l.uri, toDefinitionCacheKey l) st)) ∧
    (∀ (env : Env) (fuel : Nat) (req : SymbolSnippetsRequest) (st : EngineState)
       (l : Location) (ls : List Location) (cd : DefinitionCacheEntry),
      DefinitionLocationCache.get st req = some (l :: ls) →
      DefinitionCache.get st l = some cd →
      env.identifiers l.uri req.languageId cd.content = [] →
      ∃ st',
        getSymbolContextSnippetsRecursive env (fuel + 1) [req] none 0 st
          = (Except.ok [hitSnippet req l cd], st')
        ∧ (hitSnippet req l cd).content = some cd.content
        ∧ st'.trace = st.trace
        ∧ st'.locationCache = st.locationCache
        ∧ st'.documentToLocationCacheKeyMap = st.documentToLocationCacheKeyMap
        ∧ DefinitionLocationCache.get st' req = some (l :: ls)
        ∧ (DefinitionCache.get st' l).map (fun e => e.content) = some cd.content) := by
  constructor
  · intro env g req parents depth st l ls cd hloc hcd
    exact getSnippetForLocationGetter_cachedHit env g req parents depth st l ls cd
      hloc hcd
  · intro env fuel req st l ls cd hloc hcd hseeds
    have h4 := getSymbolSnippetForNodeType_cachedHit env
      (fun rs ps => getSymbolContextSnippetsRecursive env fuel rs ps 1)
      req none 0 st l ls cd hloc hcd hseeds
    refine ⟨DefinitionCache.set st l
      { content := cd.content, relatedDefinitionKeys := none }, ?_, rfl, rfl, rfl, rfl,
      ?_, ?_⟩
    · unfold getSymbolContextSnippetsRecursive resolveSymbolRequests
      simp only [EngineM.bind_apply, h4, updateParentDefinitionKeys]
      unfold resolveSymbolRequests
      simp [EngineM.bind_apply, EngineM.readState_apply, EngineM.pure_apply,
      EngineM.modifyState_apply, EngineM.emitCall_apply, EngineM.liftExcept_apply,
      limiter, callHover, callTextAt, DefinitionLocationCache.deleteLoc_trace,
      DefinitionLocationCache.setLoc_trace, DefinitionCache.set_trace,
      DefinitionCache.delete_trace, updateParentDefinitionKeys_trace,
      List.append_assoc, List.cons_append, List.nil_append, List.singleton_append,
      DefinitionCache.get_trace_update, DefinitionCache.getPath_trace_update,
      DefinitionLocationCache.getLoc_trace_update]
    · have hlc : (DefinitionCache.set st l
          { content := cd.content, relatedDefinitionKeys := none }).locationCache
          = st.locationCache := rfl
      rw [DefinitionLocationCache.getLoc_congr _ st req hlc]
      exact hloc
    · rw [DefinitionCache.get_set, if_pos rfl]
      rfl

def c4Request : SymbolSnippetsRequest :=
  { symbolName := "foo", uri := aUri, position := ⟨0, 0⟩
    nodeType := "identifier", languageId := "typescript" }

def c4Location : Location :=
  { uri := bUri, range := { start := ⟨3, 0⟩, stop := ⟨3, 5⟩ } }

def c4Entry : DefinitionCacheEntry :=
  { content := "const foo = 1", relatedDefinitionKeys := none }

def c4State : EngineState :=
  { definitionCache :=
      Map.insert Map.empty bUri
        (Map.insert Map.empty (⟨3, 0⟩ : Position) c4Entry)
    locationCache :=
      Map.insert Map.empty aUri
        (Map.insert Map.empty (toLocationCacheKey c4Request) [c4Location])
    documentToLocationCacheKeyMap := Map.empty
    trace := [] }

/-- Every provider oracle of this environment fails if it is ever consulted,
so the successful quiet run below also exhibits semantically that the second
resolution consults no provider. -/
def c4Env : Env :=
  { definitions := fun _ _ => Except.error "provider called"
    typeDefinitions := fun _ _ => Except.error "provider called"
    implementations := fun _ _ => Except.error "provider called"
    hover := fun _ _ => Except.error "provider called"
    textAt := fun _ => Except.error "provider called"
    identifiers := fun _ _ _ => []
    commonKeywords := fun _ => false }

/-- C4 witness: at the fixture (whose providers all fail if consulted), the
second resolution succeeds with the cached content and an unchanged trace. -/
theorem second_resolution_is_served_from_caches_witness :
    ∃ st',
      getSymbolContextSnippetsRecursive c4Env (0 + 1) [c4Request] none 0 c4State
        = (Except.ok [hitSnippet c4Request c4Location c4Entry], st')
      ∧ (hitSnippet c4Request c4Location c4Entry).content = some c4Entry.content
      ∧ st'.trace = c4State.trace
      ∧ st'.locationCache = c4State.locationCache
      ∧ st'.documentToLocationCacheKeyMap = c4State.documentToLocationCacheKeyMap
      ∧ DefinitionLocationCache.get st' c4Request = some (c4Location :: [])
      ∧ (DefinitionCache.get st' c4Location).map (fun e => e.content)
          = some c4Entry.content :=
  second_resolution_is_served_from_caches.2 c4Env 0 c4Request c4State c4Location []
    c4Entry (by decide) (by decide) (by decide)

end SymbolSnippets
